import Mathlib

/-!
Shallow embedding of the schema-migration subsystem of the repository
(`app/database/migration_manager.go`, `cmd/migrate.go`, `facades/database.go`,
`config/database_config.go`, `database` manager), together with proofs of the
specification claims about it.

Strings are modelled with Lean `String` (a wrapper around `List Char`); the Go
`strings` helpers used by the source (`strings.Split`, `strings.Replace` with
count 1, `strings.TrimSpace`, `strings.HasSuffix`, `strings.TrimSuffix`) are
given explicit executable definitions below with the same semantics
(leftmost-first, non-overlapping matching).
-/

set_option maxHeartbeats 1000000

/-- Go `strings.Split(s, sep)` on character lists, with explicit fuel
(called with fuel at least the length of the input, which makes the
fallback branch unreachable). Splits on every non-overlapping occurrence
of `sep`, scanning left to right. `acc` holds the current segment reversed. -/
def splitGo (sep : List Char) : Nat → List Char → List Char → List (List Char)
  | 0, s, acc => [acc.reverse ++ s]
  | _ + 1, [], acc => [acc.reverse]
  | fuel + 1, c :: rest, acc =>
    if sep.isPrefixOf (c :: rest) then
      acc.reverse :: splitGo sep fuel ((c :: rest).drop sep.length) []
    else
      splitGo sep fuel rest (c :: acc)

/-- Go `strings.Split` for strings: always returns at least one part. -/
def splitOnStr (s sep : String) : List String :=
  (splitGo sep.data s.data.length s.data []).map (fun l => ⟨l⟩)

/-- Go `strings.Replace(s, pat, "", 1)` on character lists: removes the
leftmost occurrence of `pat`, if any. -/
def replaceOnce (pat : List Char) : List Char → List Char
  | [] => []
  | c :: rest =>
    if pat.isPrefixOf (c :: rest) then (c :: rest).drop pat.length
    else c :: replaceOnce pat rest

/-- Go `strings.Replace(s, pat, "", 1)` for strings. -/
def replaceOnceStr (s pat : String) : String :=
  ⟨replaceOnce pat.data s.data⟩

/-- Go `strings.TrimSpace` on character lists: drop whitespace from both ends. -/
def trimL (l : List Char) : List Char :=
  ((l.dropWhile Char.isWhitespace).reverse.dropWhile Char.isWhitespace).reverse

/-- Go `strings.TrimSpace`. -/
def trimStr (s : String) : String :=
  ⟨trimL s.data⟩

/-- Go `strings.HasSuffix`. -/
def hasSuffixStr (s suffix : String) : Bool :=
  suffix.data.isSuffixOf s.data

/-- Go `strings.TrimSuffix`: drops `suffix` when present. -/
def trimSuffixStr (s suffix : String) : String :=
  if hasSuffixStr s suffix then ⟨s.data.take (s.data.length - suffix.data.length)⟩ else s

/-- The UP sentinel marker (`upMarker` in migration_manager.go). -/
def upMarker : String := "-- +++ UP Migration"

/-- The DOWN sentinel marker (`downMarker` in migration_manager.go). -/
def downMarker : String := "-- --- DOWN Migration"

/-- parseSQLStatements from migration_manager.go: split on the statement
separator, trim each candidate, keep the ones that are non-empty after
trimming, in order. -/
def parseSQLStatements (content : String) : List String :=
  (splitOnStr content ";").filterMap (fun s =>
    if trimStr s = "" then none else some (trimStr s))

/-- parseMigrationFile from migration_manager.go: split on the DOWN marker,
the part before it (with the UP marker removed once) yields the apply
statements, the part directly after it (if any) yields the revert statements. -/
def parseMigrationFile (content : String) : List String × List String :=
  let parts := splitOnStr content downMarker
  let upPart0 := parts.headD ""
  let downPart := match parts with
    | _ :: p1 :: _ => p1
    | _ => ""
  let upPart := replaceOnceStr upPart0 upMarker
  (parseSQLStatements upPart, parseSQLStatements downPart)

/-- The up-part extraction inlined in RunAllMigrationsOnConnection
(migration_manager.go lines 238-243): same computation as the first
component of parseMigrationFile. -/
def upPartOf (content : String) : String :=
  replaceOnceStr ((splitOnStr content downMarker).headD "") upMarker

/-! ## Engine state and environment -/

/-- A resolved connection handle: only the dialect predicate
(`Connection.IsPostgreSQL` in database/database.go) is observed by the
migration engine. -/
structure Conn where
  isPostgreSQL : Bool
deriving DecidableEq, Repr

/-- One row of the `migrations` ledger table: auto-increment id, filename,
batch (the `migrated_at` column is never read by the engine and is omitted). -/
structure Entry where
  id : Nat
  filename : String
  batch : Nat
deriving DecidableEq, Repr

/-- Observable database side effects of an engine operation, in order:
execution of a change-set SQL statement, a ledger INSERT, a ledger DELETE by
filename, and a ledger TRUNCATE (the flag records whether the
PostgreSQL `RESTART IDENTITY` variant was issued). -/
inductive Ev where
  | exec (sql : String)
  | insert (filename : String) (batch : Nat)
  | delete (filename : String)
  | truncate (restartIdentity : Bool)
deriving DecidableEq, Repr

/-- State of one connection's database as seen by the engine: the `migrations`
ledger in insertion (ascending id) order, the next auto-increment id, and the
trace of side effects issued so far. -/
structure St where
  ledger : List Entry
  nextId : Nat
  trace : List Ev
deriving DecidableEq, Repr

/-- Environment of an engine run: connection resolution and the outcome of
every kind of database/filesystem call the engine makes. Each field models
one call site of migration_manager.go. -/
structure Env where
  /-- facades.GetConnection: resolve a connection name. -/
  getConn : String → Except String Conn
  /-- Outcome of `conn.DB.Exec(sql)` for a SQL text (change-set statements and
  the CREATE TABLE DDL): `none` is success, `some e` the error message. -/
  execOk : String → Option String
  /-- Outcome of `SELECT COALESCE(MAX(batch),0) AS batch FROM migrations`. -/
  lastBatchErr : Option String
  /-- Outcome of `SELECT COUNT(*) FROM migrations WHERE filename = ?`. -/
  countErr : String → Option String
  /-- Outcome of `SELECT filename FROM migrations WHERE batch=? ORDER BY id DESC`. -/
  scanErr : Option String
  /-- Outcome of `INSERT INTO migrations(filename,batch) VALUES(?,?)`. -/
  insertErr : Option String
  /-- Outcome of `DELETE FROM migrations WHERE filename=?`. -/
  deleteErr : Option String
  /-- Outcome of `TRUNCATE migrations` / `TRUNCATE migrations RESTART IDENTITY`. -/
  truncErr : Option String
  /-- File names returned by `os.ReadDir("app/database/migrations")`. -/
  dirEntries : List String
  /-- Error of `os.ReadDir`, if any. -/
  readDirErr : Option String
  /-- `os.ReadFile` by path. -/
  readFile : String → Except String String

/-- The migrations directory path scheme of the source:
`fmt.Sprintf("app/database/migrations/%s.sql", filename)`. -/
def migrationPath (filename : String) : String :=
  "app/database/migrations/" ++ filename ++ ".sql"

/-- SELECT COALESCE(MAX(batch),0): the maximum batch of the ledger, 0 when empty. -/
def maxBatch (l : List Entry) : Nat :=
  l.foldl (fun a e => max a e.batch) 0

/-- SELECT COUNT(*) FROM migrations WHERE filename = ?. -/
def countApplied (st : St) (filename : String) : Nat :=
  st.ledger.countP (fun e => e.filename == filename)

/-- The filenames present in the ledger, in insertion order. -/
def ledgerNames (st : St) : List String :=
  st.ledger.map (fun e => e.filename)

/-- Execute a list of change-set SQL statements in order, aborting on the
first failure (each loop body `conn.DB.Exec(sql)` of the source); every
attempted statement is recorded in the trace. -/
def execStmts (env : Env) : List String → St → St × Except String Unit
  | [], st => (st, .ok ())
  | s :: rest, st =>
    let st1 : St := { st with trace := st.trace ++ [Ev.exec s] }
    match env.execOk s with
    | some e => (st1, .error e)
    | none => execStmts env rest st1

/-- `INSERT INTO migrations(filename,batch) VALUES(?,?)`: appends a ledger row
with the next auto-increment id on success. -/
def insertEntry (env : Env) (filename : String) (batch : Nat) (st : St) :
    St × Except String Unit :=
  let st1 : St := { st with trace := st.trace ++ [Ev.insert filename batch] }
  match env.insertErr with
  | some e => (st1, .error e)
  | none =>
    ({ st1 with ledger := st1.ledger ++ [⟨st1.nextId, filename, batch⟩],
                nextId := st1.nextId + 1 }, .ok ())

/-- `DELETE FROM migrations WHERE filename=?`: removes every row with that
filename on success. -/
def deleteEntry (env : Env) (filename : String) (st : St) :
    St × Except String Unit :=
  let st1 : St := { st with trace := st.trace ++ [Ev.delete filename] }
  match env.deleteErr with
  | some e => (st1, .error e)
  | none => ({ st1 with ledger := st1.ledger.filter (fun e => e.filename != filename) }, .ok ())

/-- The dialect-chosen TRUNCATE of FreshMigrationsOnConnection; its error is
not checked by the source, so on failure the ledger is left as it was (the
statement is still recorded as issued). On success the ledger is emptied and
the auto-increment counter restarts. -/
def truncateLedger (env : Env) (restartIdentity : Bool) (st : St) : St :=
  let st1 : St := { st with trace := st.trace ++ [Ev.truncate restartIdentity] }
  match env.truncErr with
  | some _ => st1
  | none => { st1 with ledger := [], nextId := 1 }

/-- `SELECT filename FROM migrations WHERE batch=? ORDER BY id DESC` of
RollbackBatchOnConnection. The ledger list is kept in ascending-id insertion
order, so descending-id order is its reverse. The `Scan` error is not checked
by the source: on a query error the destination slice keeps its zero value,
the empty list. -/
def batchRows (env : Env) (st : St) (batch : Nat) : List String :=
  match env.scanErr with
  | some _ => []
  | none => ((st.ledger.filter (fun e => e.batch == batch)).reverse).map (fun e => e.filename)

/-- The ledger-table DDL for PostgreSQL (ensureMigrationsTable). -/
def pgCreateTableSQL : String :=
  "CREATE TABLE IF NOT EXISTS migrations (id SERIAL PRIMARY KEY, filename VARCHAR(255) NOT NULL, batch INTEGER NOT NULL, migrated_at TIMESTAMP DEFAULT CURRENT_TIMESTAMP)"

/-- The ledger-table DDL for MySQL/MariaDB (ensureMigrationsTable). -/
def myCreateTableSQL : String :=
  "CREATE TABLE IF NOT EXISTS migrations (id INT PRIMARY KEY AUTO_INCREMENT, filename VARCHAR(255) NOT NULL, batch INT NOT NULL, migrated_at TIMESTAMP DEFAULT CURRENT_TIMESTAMP)"

/-! ## Engine operations (migration_manager.go) -/

/-- ensureMigrationsTable: resolve the connection, choose the dialect-specific
CREATE TABLE IF NOT EXISTS statement, execute it. -/
def ensureMigrationsTable (env : Env) (connectionName : String) : Except String Unit :=
  match env.getConn connectionName with
  | .error e => .error ("failed to get connection '" ++ connectionName ++ "': " ++ e)
  | .ok conn =>
    let createTableSQL := if conn.isPostgreSQL then pgCreateTableSQL else myCreateTableSQL
    match env.execOk createTableSQL with
    | some e => .error e
    | none => .ok ()

/-- getLastBatch: resolve the connection, query COALESCE(MAX(batch),0).
On error the Go function returns the zero value 0 together with the error. -/
def getLastBatch (env : Env) (connectionName : String) (st : St) : Except String Nat :=
  match env.getConn connectionName with
  | .error e => .error ("failed to get connection '" ++ connectionName ++ "': " ++ e)
  | .ok _ =>
    match env.lastBatchErr with
    | some e => .error e
    | none => .ok (maxBatch st.ledger)

/-- isMigrationApplied: COUNT(*) by filename, compared against zero. -/
def isMigrationApplied (env : Env) (filename connectionName : String) (st : St) :
    Except String Bool :=
  match env.getConn connectionName with
  | .error e => .error ("failed to get connection '" ++ connectionName ++ "': " ++ e)
  | .ok _ =>
    match env.countErr filename with
    | some e => .error e
    | none => .ok (decide (0 < countApplied st filename))

/-- The connection-name defaulting at the top of every engine operation:
`if connectionName == "" { connectionName = "mysql" }`. -/
def dflt (connectionName : String) : String :=
  if connectionName = "" then "mysql" else connectionName

/-- RunMigrationOnConnection (apply-one): default the connection name, ensure
the ledger, compute last batch + 1, read and parse the file, execute every
apply statement in order, then record the ledger row. -/
def runMigrationOnConnection (env : Env) (filename connectionName : String) (st : St) :
    St × Except String Unit :=
  match ensureMigrationsTable env (dflt connectionName) with
  | .error e => (st, .error e)
  | .ok () =>
  match getLastBatch env (dflt connectionName) st with
  | .error e => (st, .error e)
  | .ok last =>
  match env.readFile (migrationPath filename) with
  | .error e => (st, .error ("gagal membaca file migrasi: " ++ e))
  | .ok data =>
  match env.getConn (dflt connectionName) with
  | .error e => (st, .error ("failed to get connection '" ++ dflt connectionName ++ "': " ++ e))
  | .ok _ =>
  match execStmts env (parseMigrationFile data).1 st with
  | (st1, .error e) => (st1, .error ("gagal menjalankan migrasi: " ++ e))
  | (st1, .ok ()) =>
  match insertEntry env filename (last + 1) st1 with
  | (st2, .error e) => (st2, .error ("gagal mencatat migrasi: " ++ e))
  | (st2, .ok ()) => (st2, .ok ())

/-- RollbackMigrationOnConnection (revert-one): default the connection name,
read and parse the file, execute every revert statement in order, then delete
the ledger row. No ledger-existence or applied check is made first. -/
def rollbackMigrationOnConnection (env : Env) (filename connectionName : String) (st : St) :
    St × Except String Unit :=
  match env.readFile (migrationPath filename) with
  | .error e => (st, .error ("gagal membaca file rollback: " ++ e))
  | .ok data =>
  match env.getConn (dflt connectionName) with
  | .error e => (st, .error ("failed to get connection '" ++ dflt connectionName ++ "': " ++ e))
  | .ok _ =>
  match execStmts env (parseMigrationFile data).2 st with
  | (st1, .error e) => (st1, .error ("gagal rollback: " ++ e))
  | (st1, .ok ()) =>
  match deleteEntry env filename st1 with
  | (st2, .error e) => (st2, .error ("gagal menghapus record migrasi: " ++ e))
  | (st2, .ok ()) => (st2, .ok ())

/-- The pending-file computation of RunAllMigrationsOnConnection: every
directory entry ending in `.sql`, with the suffix trimmed, whose applied-count
query returns 0. The `Scan(&cnt)` error is not checked by the source, so on a
query error `cnt` keeps its zero value 0 and the file counts as pending. -/
def pendingCount (env : Env) (st : St) (name : String) : Nat :=
  match env.countErr name with
  | some _ => 0
  | none => countApplied st name

/-- The body of the pending-file filter loop (see pendingCount for the
`cnt` computation). -/
def pendingList (env : Env) (st : St) : List String :=
  env.dirEntries.filterMap (fun fname =>
    if hasSuffixStr fname ".sql" then
      if pendingCount env st (trimSuffixStr fname ".sql") = 0 then
        some (trimSuffixStr fname ".sql")
      else none
    else none)

/-- Go `sort.Strings`: lexicographically ascending sort. -/
def sortStrings (l : List String) : List String :=
  l.insertionSort (fun a b => a ≤ b)

/-- The per-file loop of RunAllMigrationsOnConnection: read, take the up part,
execute its statements, record with the shared batch number; the first failure
aborts the whole loop. -/
def applyLoop (env : Env) (batch : Nat) : List String → St → St × Except String Unit
  | [], st => (st, .ok ())
  | name :: rest, st =>
    match env.readFile (migrationPath name) with
    | .error e => (st, .error ("gagal membaca " ++ name ++ ": " ++ e))
    | .ok data =>
      match execStmts env (parseSQLStatements (upPartOf data)) st with
      | (st1, .error e) => (st1, .error ("gagal " ++ name ++ ": " ++ e))
      | (st1, .ok ()) =>
        match insertEntry env name batch st1 with
        | (st2, .error e) => (st2, .error ("gagal mencatat " ++ name ++ ": " ++ e))
        | (st2, .ok ()) => applyLoop env batch rest st2

/-- RunAllMigrationsOnConnection (apply-all): default the connection name,
ensure the ledger, compute one shared batch number (max batch + 1), list the
directory, filter to pending files, sort ascending, then run the apply loop. -/
def runAllMigrationsOnConnection (env : Env) (connectionName : String) (st : St) :
    St × Except String Unit :=
  match ensureMigrationsTable env (dflt connectionName) with
  | .error e => (st, .error e)
  | .ok () =>
  match env.getConn (dflt connectionName) with
  | .error e => (st, .error ("failed to get connection '" ++ dflt connectionName ++ "': " ++ e))
  | .ok _ =>
  match env.lastBatchErr with
  | some e => (st, .error e)
  | none =>
  match env.readDirErr with
  | some e => (st, .error ("gagal baca folder: " ++ e))
  | none =>
  applyLoop env (maxBatch st.ledger + 1) (sortStrings (pendingList env st)) st

/-- The per-row loop of RollbackBatchOnConnection: revert-one for each
filename, aborting on the first failure. -/
def rollbackLoop (env : Env) (connectionName : String) :
    List String → St → St × Except String Unit
  | [], st => (st, .ok ())
  | f :: rest, st =>
    match rollbackMigrationOnConnection env f connectionName st with
    | (st1, .error e) => (st1, .error e)
    | (st1, .ok ()) => rollbackLoop env connectionName rest st1

/-- RollbackBatchOnConnection (revert-batch): default the connection name,
ensure the ledger, list the batch's filenames in descending id order (query
error ignored, yielding the empty list), revert each in that order. -/
def rollbackBatchOnConnection (env : Env) (batch : Nat) (connectionName : String) (st : St) :
    St × Except String Unit :=
  match ensureMigrationsTable env (dflt connectionName) with
  | .error e => (st, .error e)
  | .ok () =>
  match env.getConn (dflt connectionName) with
  | .error e => (st, .error ("failed to get connection '" ++ dflt connectionName ++ "': " ++ e))
  | .ok _ =>
  rollbackLoop env (dflt connectionName) (batchRows env st batch) st

/-- The `last, _ := getLastBatch(...)` pattern of the source: the error is
discarded and the zero value 0 is used in its place. -/
def lastBatchOrZero (env : Env) (connectionName : String) (st : St) : Nat :=
  match getLastBatch env connectionName st with
  | .ok l => l
  | .error _ => 0

/-- RollbackLastBatchOnConnection (revert-last-batch): default the connection
name, compute the last batch discarding any error (`last, _ :=`), report
nothing to do when it is 0, else delegate to revert-batch. -/
def rollbackLastBatchOnConnection (env : Env) (connectionName : String) (st : St) :
    St × Except String Unit :=
  if lastBatchOrZero env (dflt connectionName) st = 0 then (st, .ok ())
  else rollbackBatchOnConnection env (lastBatchOrZero env (dflt connectionName) st)
    (dflt connectionName) st

/-- The batch countdown loop of RunAllRollbacksOnConnection
(`for b := last; b >= 1; b--`). -/
def rollbackAllLoop (env : Env) (connectionName : String) : Nat → St → St × Except String Unit
  | 0, st => (st, .ok ())
  | b + 1, st =>
    match rollbackBatchOnConnection env (b + 1) connectionName st with
    | (st1, .error e) => (st1, .error e)
    | (st1, .ok ()) => rollbackAllLoop env connectionName b st1

/-- RunAllRollbacksOnConnection (revert-all): default the connection name,
ensure the ledger, compute the last batch discarding any error (`last, _ :=`),
revert batches from last down to 1, stopping on the first failure. -/
def runAllRollbacksOnConnection (env : Env) (connectionName : String) (st : St) :
    St × Except String Unit :=
  match ensureMigrationsTable env (dflt connectionName) with
  | .error e => (st, .error e)
  | .ok () =>
  rollbackAllLoop env (dflt connectionName) (lastBatchOrZero env (dflt connectionName) st) st

/-- FreshMigrationsOnConnection (fresh): default the connection name, ensure
the ledger, issue the dialect-specific TRUNCATE (error unchecked), then
delegate to apply-all. -/
def freshMigrationsOnConnection (env : Env) (connectionName : String) (st : St) :
    St × Except String Unit :=
  match ensureMigrationsTable env (dflt connectionName) with
  | .error e => (st, .error e)
  | .ok () =>
  match env.getConn (dflt connectionName) with
  | .error e => (st, .error ("failed to get connection '" ++ dflt connectionName ++ "': " ++ e))
  | .ok conn =>
  runAllMigrationsOnConnection env (dflt connectionName)
    (truncateLedger env conn.isPostgreSQL st)

/-- The action of the `migrate:fresh` CLI command (cmd/migrate.go lines
99-113): it does NOT call FreshMigrationsOnConnection; it performs
revert-all followed by apply-all. -/
def migrateFreshCommand (env : Env) (connection : String) (st : St) :
    St × Except String Unit :=
  match runAllRollbacksOnConnection env connection st with
  | (st1, .error e) => (st1, .error e)
  | (st1, .ok ()) => runAllMigrationsOnConnection env connection st1

/-! ## Configuration and the connection registry
(config/database_config.go, database manager) -/

/-- getEnv from config/database_config.go: the environment variable's value,
or the fallback when it is unset/empty (`os.Getenv` yields "" for unset). -/
def getEnvOr (value fallback : String) : String :=
  if value ≠ "" then value else fallback

/-- The `Default` field computed by GetDatabaseConfigs:
`getEnv("DB_CONNECTION", "mysql")`, as a function of the DB_CONNECTION
environment variable's raw value. -/
def configuredDefaultConnection (dbConnectionEnv : String) : String :=
  getEnvOr dbConnectionEnv "mysql"

/-- DatabaseConfig restricted to the fields read by Validate and the
dialect dispatch of Manager.Connect (the DSN/pool fields are never inspected
by connection resolution's control flow). The Go `DatabaseType` is a string. -/
structure DatabaseConfig where
  type : String
  host : String
  database : String
  username : String
deriving DecidableEq, Repr

/-- DatabaseConfig.Validate from config/database_config.go. -/
def DatabaseConfig.validate (cfg : DatabaseConfig) : Except String Unit :=
  if cfg.type = "" then .error "database type is required"
  else if cfg.type = "mysql" ∨ cfg.type = "postgres" ∨ cfg.type = "sqlserver" then
    if cfg.host = "" then .error ("host is required for " ++ cfg.type)
    else if cfg.database = "" then .error ("database name is required for " ++ cfg.type)
    else if cfg.username = "" then .error ("username is required for " ++ cfg.type)
    else .ok ()
  else if cfg.type = "sqlite" then
    if cfg.database = "" then .error "database file path is required for SQLite"
    else .ok ()
  else .ok ()

/-- An established connection as stored by the manager (wraps the handle;
we keep the name and the config type it was opened with). -/
structure ManagerConn where
  name : String
  cfgType : String
deriving DecidableEq, Repr

/-- The manager's registry state: the `connections` map, as an association
list in insertion order. -/
structure MgrSt where
  connections : List (String × ManagerConn)
deriving DecidableEq, Repr

/-- Environment of connection resolution: the configuration map and the
outcome of the dial steps (gorm.Open, db.DB(), sqlDB.Ping()) per name. -/
structure MgrEnv where
  configs : List (String × DatabaseConfig)
  openErr : String → Option String
  dbErr : String → Option String
  pingErr : String → Option String

/-- Lookup in the registry map. -/
def lookupConn (st : MgrSt) (name : String) : Option ManagerConn :=
  (st.connections.find? (fun p => p.1 == name)).map (fun p => p.2)

/-- Lookup in the configuration map. -/
def lookupCfg (env : MgrEnv) (name : String) : Option DatabaseConfig :=
  (env.configs.find? (fun p => p.1 == name)).map (fun p => p.2)

/-- Manager.Connect from the database manager: return the cached connection
if present; otherwise look up the configuration, validate it, dispatch on the
dialect (unsupported types rejected), open, obtain the pool handle, ping, and
only then store the connection in the registry. -/
def managerConnect (env : MgrEnv) (st : MgrSt) (connectionName : String) :
    MgrSt × Except String ManagerConn :=
  match lookupConn st connectionName with
  | some conn => (st, .ok conn)
  | none =>
  match lookupCfg env connectionName with
  | none => (st, .error ("database configuration '" ++ connectionName ++ "' not found"))
  | some cfg =>
  match cfg.validate with
  | .error e => (st, .error ("invalid configuration for '" ++ connectionName ++ "': " ++ e))
  | .ok () =>
  if cfg.type = "mysql" ∨ cfg.type = "postgres" ∨ cfg.type = "sqlite" ∨ cfg.type = "sqlserver" then
    match env.openErr connectionName with
    | some e => (st, .error ("failed to connect to database '" ++ connectionName ++ "': " ++ e))
    | none =>
    match env.dbErr connectionName with
    | some e => (st, .error ("failed to get SQL DB object for '" ++ connectionName ++ "': " ++ e))
    | none =>
    match env.pingErr connectionName with
    | some e => (st, .error ("failed to ping database '" ++ connectionName ++ "': " ++ e))
    | none =>
      ({ st with connections :=
          st.connections ++ [(connectionName, ⟨connectionName, cfg.type⟩)] },
       .ok ⟨connectionName, cfg.type⟩)
  else (st, .error ("unsupported database type: " ++ cfg.type))

/-- Manager.GetConnection: return the cached connection, else Connect. -/
def managerGetConnection (env : MgrEnv) (st : MgrSt) (connectionName : String) :
    MgrSt × Except String ManagerConn :=
  match lookupConn st connectionName with
  | some conn => (st, .ok conn)
  | none => managerConnect env st connectionName

/-! ## Sequences of engine operations -/

/-- One invocation of a top-level engine operation. -/
inductive Op where
  | applyOne (filename : String)
  | applyAll
  | revertOne (filename : String)
  | revertBatch (batch : Nat)
  | revertLast
  | revertAll
  | fresh
deriving DecidableEq, Repr

/-- Dispatch one operation against a fixed connection name. -/
def runOp (env : Env) (c : String) : Op → St → St × Except String Unit
  | .applyOne f, st => runMigrationOnConnection env f c st
  | .applyAll, st => runAllMigrationsOnConnection env c st
  | .revertOne f, st => rollbackMigrationOnConnection env f c st
  | .revertBatch b, st => rollbackBatchOnConnection env b c st
  | .revertLast, st => rollbackLastBatchOnConnection env c st
  | .revertAll, st => runAllRollbacksOnConnection env c st
  | .fresh, st => freshMigrationsOnConnection env c st

/-- Run a sequence of operations, threading the database state (a failed
operation leaves whatever state its last successful statement produced, and
later operations still run, as with successive CLI invocations). -/
def runOps (env : Env) (c : String) : List Op → St → St
  | [], st => st
  | op :: rest, st => runOps env c rest (runOp env c op st).1

/-- Safety condition of a single operation: apply-one is only invoked for a
filename not currently in the ledger (the engine itself does not check). -/
def opSafe (op : Op) (st : St) : Prop :=
  match op with
  | .applyOne f => f ∉ ledgerNames st
  | _ => True

/-- Safety of a whole operation sequence, checked along the execution. -/
def safeOps (env : Env) (c : String) : List Op → St → Prop
  | [], _ => True
  | op :: rest, st => opSafe op st ∧ safeOps env c rest (runOp env c op st).1

/-- The change-set SQL statements recorded in a trace, in execution order. -/
def execsOf (tr : List Ev) : List String :=
  tr.filterMap (fun e => match e with
    | .exec s => some s
    | _ => none)

/-- The apply statements the engine would run for a pending file name
(empty when the file cannot be read, in which case apply-all aborts before
executing anything of it). -/
def upStmtsOf (env : Env) (name : String) : List String :=
  match env.readFile (migrationPath name) with
  | .error _ => []
  | .ok data => parseSQLStatements (upPartOf data)

/-- The revert statements the engine would run for a ledger file name. -/
def downStmtsOf (env : Env) (name : String) : List String :=
  match env.readFile (migrationPath name) with
  | .error _ => []
  | .ok data => (parseMigrationFile data).2

/-- Ledger rows created by the apply loop: consecutive ids from `id0`, all
with the shared batch number. -/
def mkEntries (id0 batch : Nat) : List String → List Entry
  | [] => []
  | n :: ns => ⟨id0, n, batch⟩ :: mkEntries (id0 + 1) batch ns


/-! ## Theory of the splitting helpers -/

/-- No occurrence of `sep` starts at a position below `n` in `l`. -/
def noSepBelow (sep l : List Char) (n : Nat) : Prop :=
  ∀ i < n, sep.isPrefixOf (l.drop i) = false

theorem noSep_of_below {sep l : List Char} (hsep : sep ≠ [])
    (h : noSepBelow sep l l.length) : ∀ i, sep.isPrefixOf (l.drop i) = false := by
  intro i
  by_cases hi : i < l.length
  · exact h i hi
  · have hd : l.drop i = [] := List.drop_eq_nil_of_le (Nat.le_of_not_lt hi)
    rw [hd]
    cases sep with
    | nil => exact absurd rfl hsep
    | cons c cs => simp

theorem splitGo_fuel {sep : List Char} (hsep : sep ≠ []) :
    ∀ (f1 : Nat) (s acc : List Char) (f2 : Nat), s.length ≤ f1 → s.length ≤ f2 →
      splitGo sep f1 s acc = splitGo sep f2 s acc := by
  have hsl : 1 ≤ sep.length := List.length_pos.mpr hsep
  intro f1
  induction f1 with
  | zero =>
    intro s acc f2 h1 _
    have hs : s = [] := List.eq_nil_of_length_eq_zero (Nat.le_zero.mp h1)
    subst hs
    cases f2 <;> simp [splitGo]
  | succ f ih =>
    intro s acc f2 h1 h2
    cases s with
    | nil => cases f2 <;> simp [splitGo]
    | cons c rest =>
      cases f2 with
      | zero => simp at h2
      | succ k =>
        simp only [splitGo]
        by_cases hp : sep.isPrefixOf (c :: rest) = true
        · simp only [hp, if_true]
          congr 1
          apply ih
          · simp only [List.length_drop, List.length_cons]
            simp only [List.length_cons] at h1
            omega
          · simp only [List.length_drop, List.length_cons]
            simp only [List.length_cons] at h2
            omega
        · simp only [hp, if_false]
          apply ih
          · simp only [List.length_cons] at h1; omega
          · simp only [List.length_cons] at h2; omega

theorem splitGo_noSep {sep : List Char} :
    ∀ (s acc : List Char) (fuel : Nat), s.length ≤ fuel →
      (∀ i, sep.isPrefixOf (s.drop i) = false) →
      splitGo sep fuel s acc = [acc.reverse ++ s] := by
  intro s
  induction s with
  | nil =>
    intro acc fuel _ _
    cases fuel <;> simp [splitGo]
  | cons c rest ih =>
    intro acc fuel hf h
    cases fuel with
    | zero => simp at hf
    | succ f =>
      have h0 : sep.isPrefixOf (c :: rest) = false := by simpa using h 0
      simp only [splitGo, h0, if_false]
      rw [ih (c :: acc) f (by simp at hf; omega)
        (fun i => by simpa [List.drop_succ_cons] using h (i + 1))]
      simp

theorem splitGo_boundary {sep : List Char} (hsep : sep ≠ []) :
    ∀ (a b acc : List Char) (fuel : Nat), (a ++ sep ++ b).length ≤ fuel →
      noSepBelow sep (a ++ sep ++ b) a.length →
      splitGo sep fuel (a ++ sep ++ b) acc =
        (acc.reverse ++ a) :: splitGo sep b.length b [] := by
  intro a
  induction a with
  | nil =>
    intro b acc fuel hf _
    cases sep with
    | nil => exact absurd rfl hsep
    | cons c cs =>
      cases fuel with
      | zero =>
        exfalso
        simp only [List.nil_append, List.length_append, List.length_cons,
          Nat.le_zero] at hf
        omega
      | succ f =>
        have hp : (c :: cs).isPrefixOf (c :: (cs ++ b)) = true :=
          List.isPrefixOf_iff_prefix.mpr (List.prefix_append (c :: cs) b)
        show splitGo (c :: cs) (f + 1) (c :: (cs ++ b)) acc = _
        rw [splitGo, if_pos hp]
        have hd : (c :: (cs ++ b)).drop (c :: cs).length = b := by
          simp only [List.length_cons, List.drop_succ_cons]
          exact List.drop_left cs b
        rw [hd]
        have hb : b.length ≤ f := by
          simp only [List.nil_append, List.length_append, List.length_cons] at hf
          omega
        rw [splitGo_fuel hsep f b [] b.length hb (Nat.le_refl _)]
        simp

  | cons c a' ih =>
    intro b acc fuel hf hA
    cases fuel with
    | zero =>
      exfalso
      simp only [List.cons_append, List.length_append, List.length_cons,
        Nat.le_zero] at hf
      omega
    | succ f =>
      have h0 : sep.isPrefixOf (c :: (a' ++ sep ++ b)) = false := by
        have h := hA 0 (by simp)
        rw [List.drop_zero] at h
        exact h
      show splitGo sep (f + 1) (c :: (a' ++ sep ++ b)) acc = _
      rw [splitGo, if_neg (by rw [h0]; exact Bool.false_ne_true)]
      have hbound : (a' ++ sep ++ b).length ≤ f := by
        simp only [List.cons_append, List.length_append, List.length_cons] at hf
        simp only [List.length_append]
        omega
      have hA' : noSepBelow sep (a' ++ sep ++ b) a'.length := by
        intro i hi
        have h := hA (i + 1) (by simp only [List.length_cons]; omega)
        rw [show ((c :: a') ++ sep ++ b) = c :: (a' ++ sep ++ b) from rfl,
          List.drop_succ_cons] at h
        exact h
      rw [ih b (c :: acc) f hbound hA']
      simp

theorem replaceOnce_noSep {sep : List Char} :
    ∀ (s : List Char), (∀ i, sep.isPrefixOf (s.drop i) = false) →
      replaceOnce sep s = s := by
  intro s
  induction s with
  | nil => intro _; rfl
  | cons c rest ih =>
    intro h
    have h0 : sep.isPrefixOf (c :: rest) = false := by
      have h' := h 0
      rw [List.drop_zero] at h'
      exact h'
    rw [replaceOnce, if_neg (by rw [h0]; exact Bool.false_ne_true)]
    rw [ih (fun i => by
      have h' := h (i + 1)
      rw [List.drop_succ_cons] at h'
      exact h')]

theorem replaceOnce_boundary {sep : List Char} (hsep : sep ≠ []) :
    ∀ (a u : List Char), noSepBelow sep (a ++ sep ++ u) a.length →
      replaceOnce sep (a ++ sep ++ u) = a ++ u := by
  intro a
  induction a with
  | nil =>
    intro u _
    cases sep with
    | nil => exact absurd rfl hsep
    | cons c cs =>
      have hp : (c :: cs).isPrefixOf (c :: (cs ++ u)) = true :=
        List.isPrefixOf_iff_prefix.mpr (List.prefix_append (c :: cs) u)
      show replaceOnce (c :: cs) (c :: (cs ++ u)) = [] ++ u
      rw [replaceOnce, if_pos hp]
      simp only [List.length_cons, List.drop_succ_cons, List.nil_append]
      exact List.drop_left cs u
  | cons c a' ih =>
    intro u hA
    have h0 : sep.isPrefixOf (c :: (a' ++ sep ++ u)) = false := by
      have h := hA 0 (by simp)
      rw [List.drop_zero] at h
      exact h
    show replaceOnce sep (c :: (a' ++ sep ++ u)) = (c :: a') ++ u
    rw [replaceOnce, if_neg (by rw [h0]; exact Bool.false_ne_true)]
    rw [ih u (fun i hi => by
      have h := hA (i + 1) (by simp only [List.length_cons]; omega)
      rw [show ((c :: a') ++ sep ++ u) = c :: (a' ++ sep ++ u) from rfl,
        List.drop_succ_cons] at h
      exact h)]
    rfl

theorem splitOnStr_cons (a rest sep : String) (hsep : sep.data ≠ [])
    (hA : noSepBelow sep.data (a ++ sep ++ rest).data a.data.length) :
    splitOnStr (a ++ sep ++ rest) sep = a :: splitOnStr rest sep := by
  unfold splitOnStr
  have hdata : (a ++ sep ++ rest).data = a.data ++ sep.data ++ rest.data := by
    simp [String.data_append]
  rw [hdata] at hA ⊢
  rw [splitGo_boundary hsep a.data rest.data [] _ (Nat.le_refl _) hA]
  simp

theorem splitOnStr_noSep (s sep : String) (hsep : sep.data ≠ [])
    (hS : noSepBelow sep.data s.data s.data.length) :
    splitOnStr s sep = [s] := by
  unfold splitOnStr
  rw [splitGo_noSep s.data [] s.data.length (Nat.le_refl _) (noSep_of_below hsep hS)]
  simp

theorem splitOnStr_two (a d sep : String) (hsep : sep.data ≠ [])
    (hA : noSepBelow sep.data (a ++ sep ++ d).data a.data.length)
    (hD : noSepBelow sep.data d.data d.data.length) :
    splitOnStr (a ++ sep ++ d) sep = [a, d] := by
  rw [splitOnStr_cons a d sep hsep hA, splitOnStr_noSep d sep hsep hD]

/-- The DOWN marker is non-empty. -/
theorem downMarker_ne_nil : downMarker.data ≠ [] := by decide

/-- The UP marker is non-empty. -/
theorem upMarker_ne_nil : upMarker.data ≠ [] := by decide

/-- replaceOnceStr at the string level, when the pattern's first occurrence
is at the position shown. -/
theorem replaceOnceStr_boundary (a pat u : String) (hpat : pat.data ≠ [])
    (hA : noSepBelow pat.data (a ++ pat ++ u).data a.data.length) :
    replaceOnceStr (a ++ pat ++ u) pat = a ++ u := by
  unfold replaceOnceStr
  have hdata : (a ++ pat ++ u).data = a.data ++ pat.data ++ u.data := by
    simp [String.data_append]
  rw [hdata] at hA ⊢
  rw [replaceOnce_boundary hpat a.data u.data hA]
  show String.mk (a.data ++ u.data) = a ++ u
  rw [← String.data_append]

/-- replaceOnceStr is the identity when the pattern does not occur. -/
theorem replaceOnceStr_noSep (s pat : String)
    (hS : ∀ i, pat.data.isPrefixOf (s.data.drop i) = false) :
    replaceOnceStr s pat = s := by
  unfold replaceOnceStr
  rw [replaceOnce_noSep s.data hS]

/-- parseMigrationFile on a text whose DOWN marker occurs exactly once, at the
position shown: the apply statements come from the text before it (with the
first UP marker occurrence removed), the revert statements from the text
after it. -/
theorem parseMigrationFile_two (a d : String)
    (hA : noSepBelow downMarker.data (a ++ downMarker ++ d).data a.data.length)
    (hD : noSepBelow downMarker.data d.data d.data.length) :
    parseMigrationFile (a ++ downMarker ++ d) =
      (parseSQLStatements (replaceOnceStr a upMarker), parseSQLStatements d) := by
  unfold parseMigrationFile
  rw [splitOnStr_two a d downMarker downMarker_ne_nil hA hD]
  rfl

/-- parseMigrationFile on a text with two (or more, inside `c`) DOWN marker
occurrences: the apply statements come from before the first occurrence, the
revert statements from strictly between the first and the second, and the
text after the second occurrence contributes to neither. -/
theorem parseMigrationFile_three (a b c : String)
    (hA : noSepBelow downMarker.data (a ++ downMarker ++ (b ++ downMarker ++ c)).data
      a.data.length)
    (hB : noSepBelow downMarker.data (b ++ downMarker ++ c).data b.data.length) :
    parseMigrationFile (a ++ downMarker ++ (b ++ downMarker ++ c)) =
      (parseSQLStatements (replaceOnceStr a upMarker), parseSQLStatements b) := by
  unfold parseMigrationFile
  rw [splitOnStr_cons a (b ++ downMarker ++ c) downMarker downMarker_ne_nil hA]
  rw [splitOnStr_cons b c downMarker downMarker_ne_nil hB]
  rfl

/-- Length of a filterMap is the count of elements mapped to some value. -/
theorem length_filterMap_eq_countP {α β : Type} (g : α → Option β) :
    ∀ l : List α, (l.filterMap g).length = l.countP (fun a => (g a).isSome) := by
  intro l
  induction l with
  | nil => rfl
  | cons x xs ih =>
    rw [List.filterMap_cons, List.countP_cons]
    cases hx : g x with
    | none => simp [hx, ih]
    | some b => simp [hx, ih]

/-- parseSQLStatements returns exactly as many statements as there are
segments of the input that are non-empty after trimming. -/
theorem parseSQLStatements_length (s : String) :
    (parseSQLStatements s).length =
      (splitOnStr s ";").countP (fun seg => !(trimStr seg == "")) := by
  unfold parseSQLStatements
  rw [length_filterMap_eq_countP]
  apply List.countP_congr
  intro seg _
  by_cases h : trimStr seg = "" <;> simp [h]

/-- Every list drops to nil or to a head failing the predicate. -/
theorem dropWhile_cases (p : Char → Bool) (l : List Char) :
    l.dropWhile p = [] ∨ ∃ c t, l.dropWhile p = c :: t ∧ p c = false := by
  induction l with
  | nil => exact Or.inl rfl
  | cons x xs ih =>
    by_cases hx : p x = true
    · rw [List.dropWhile_cons, if_pos hx]
      exact ih
    · rw [List.dropWhile_cons, if_neg hx]
      exact Or.inr ⟨x, xs, rfl, by simpa using hx⟩

/-- dropWhile is the identity when the head (if any) fails the predicate. -/
theorem dropWhile_eq_self_of_head (p : Char → Bool) :
    ∀ l : List Char, (l = [] ∨ ∃ c t, l = c :: t ∧ p c = false) → l.dropWhile p = l := by
  intro l h
  rcases h with h | ⟨c, t, rfl, hc⟩
  · subst h; rfl
  · rw [List.dropWhile_cons, if_neg (by simp [hc])]

/-- The reverse of a suffix is a prefix of the reverse. -/
theorem suffix_reverse_pre {l₁ l₂ : List Char} (h : l₁ <:+ l₂) :
    l₁.reverse <+: l₂.reverse := by
  obtain ⟨p, hp⟩ := h
  exact ⟨p.reverse, by rw [← List.reverse_append, hp]⟩

/-- The two-sided whitespace trim at the character level is idempotent. -/
theorem trimL_idem (l : List Char) : trimL (trimL l) = trimL l := by
  unfold trimL
  have h1 : (((l.dropWhile Char.isWhitespace).reverse.dropWhile
        Char.isWhitespace).reverse).dropWhile Char.isWhitespace =
      ((l.dropWhile Char.isWhitespace).reverse.dropWhile Char.isWhitespace).reverse := by
    apply dropWhile_eq_self_of_head
    rcases dropWhile_cases Char.isWhitespace l with hAnil | ⟨c, t, hAc, hc⟩
    · left
      rw [hAnil]
      rfl
    · by_cases hBnil :
          ((l.dropWhile Char.isWhitespace).reverse.dropWhile Char.isWhitespace).reverse = []
      · exact Or.inl hBnil
      · right
        have hsub : (l.dropWhile Char.isWhitespace).reverse.dropWhile Char.isWhitespace <:+
            (l.dropWhile Char.isWhitespace).reverse := List.dropWhile_suffix _
        have hpre : ((l.dropWhile Char.isWhitespace).reverse.dropWhile
            Char.isWhitespace).reverse <+: l.dropWhile Char.isWhitespace := by
          have h := suffix_reverse_pre hsub
          rwa [List.reverse_reverse] at h
        obtain ⟨r, hr⟩ := hpre
        cases hBr : ((l.dropWhile Char.isWhitespace).reverse.dropWhile
            Char.isWhitespace).reverse with
        | nil => exact absurd hBr hBnil
        | cons x xs =>
          refine ⟨x, xs, rfl, ?_⟩
          rw [hBr, hAc] at hr
          have hx : x = c := by
            have h := congrArg List.head? hr
            simpa using h
          rw [hx]
          exact hc
  rw [h1, List.reverse_reverse]
  have h2 : ((l.dropWhile Char.isWhitespace).reverse.dropWhile
        Char.isWhitespace).dropWhile Char.isWhitespace =
      (l.dropWhile Char.isWhitespace).reverse.dropWhile Char.isWhitespace := by
    apply dropWhile_eq_self_of_head
    rcases dropWhile_cases Char.isWhitespace (l.dropWhile Char.isWhitespace).reverse with
      hBnil | ⟨c, t, hBc, hc⟩
    · exact Or.inl hBnil
    · exact Or.inr ⟨c, t, hBc, hc⟩
  rw [h2]

/-- trimStr is idempotent. -/
theorem trimStr_idem (s : String) : trimStr (trimStr s) = trimStr s := by
  unfold trimStr
  exact congrArg String.mk (trimL_idem s.data)

/-- Every statement returned by parseSQLStatements is already trimmed. -/
theorem parseSQLStatements_trimmed (s : String) :
    ∀ t ∈ parseSQLStatements s, trimStr t = t := by
  intro t ht
  unfold parseSQLStatements at ht
  rw [List.mem_filterMap] at ht
  obtain ⟨seg, _, hseg⟩ := ht
  by_cases h : trimStr seg = ""
  · rw [if_pos h] at hseg
    exact absurd hseg (by simp)
  · rw [if_neg h] at hseg
    have heq := Option.some.inj hseg
    rw [← heq]
    exact trimStr_idem seg

/-! ## Engine lemmas -/

theorem prefix_append_left {α : Type} (x : List α) {p q : List α} (h : p <+: q) :
    x ++ p <+: x ++ q := by
  obtain ⟨r, hr⟩ := h
  exact ⟨r, by rw [List.append_assoc, hr]⟩

theorem prefix_extend {α : Type} {p q : List α} (r : List α) (h : p <+: q) :
    p <+: q ++ r :=
  h.trans (List.prefix_append q r)

@[simp] theorem execsOf_nil : execsOf [] = [] := rfl

theorem execsOf_append (a b : List Ev) : execsOf (a ++ b) = execsOf a ++ execsOf b := by
  unfold execsOf
  exact List.filterMap_append a b _

@[simp] theorem execsOf_exec_map (p : List String) : execsOf (p.map Ev.exec) = p := by
  induction p with
  | nil => rfl
  | cons s rest ih => simp [execsOf] at ih ⊢; exact ih

@[simp] theorem execsOf_insert_ev (f : String) (b : Nat) :
    execsOf [Ev.insert f b] = [] := rfl

@[simp] theorem execsOf_delete_ev (f : String) : execsOf [Ev.delete f] = [] := rfl

@[simp] theorem execsOf_trunc_ev (b : Bool) : execsOf [Ev.truncate b] = [] := rfl

@[simp] theorem execsOf_exec_ev (s : String) : execsOf [Ev.exec s] = [s] := rfl

/-- Behaviour of the statement-execution loop: it never touches the ledger or
the id counter, its trace extension is the executed prefix of the statements,
and it succeeds exactly when every statement does. -/
theorem execStmts_spec (env : Env) :
    ∀ (ss : List String) (st : St),
      (execStmts env ss st).1.ledger = st.ledger ∧
      (execStmts env ss st).1.nextId = st.nextId ∧
      (∃ p, p <+: ss ∧ (execStmts env ss st).1.trace = st.trace ++ p.map Ev.exec) ∧
      ((execStmts env ss st).2 = .ok () →
        (execStmts env ss st).1.trace = st.trace ++ ss.map Ev.exec ∧
        ∀ s ∈ ss, env.execOk s = none) := by
  intro ss
  induction ss with
  | nil =>
    intro st
    refine ⟨rfl, rfl, ⟨[], List.nil_prefix, by simp [execStmts]⟩, fun _ => ⟨by simp [execStmts], by simp⟩⟩
  | cons s rest ih =>
    intro st
    cases hex : env.execOk s with
    | some e =>
      have hstep : execStmts env (s :: rest) st =
          ({ st with trace := st.trace ++ [Ev.exec s] }, .error e) := by
        simp [execStmts, hex]
      rw [hstep]
      refine ⟨rfl, rfl, ⟨[s], ⟨rest, rfl⟩, by simp⟩, ?_⟩
      intro h
      exact absurd h (by simp)
    | none =>
      have hstep : execStmts env (s :: rest) st =
          execStmts env rest { st with trace := st.trace ++ [Ev.exec s] } := by
        simp [execStmts, hex]
      rw [hstep]
      obtain ⟨ihl, ihn, ⟨p, hp, htr⟩, ihok⟩ := ih { st with trace := st.trace ++ [Ev.exec s] }
      refine ⟨ihl, ihn, ⟨s :: p, ?_, ?_⟩, ?_⟩
      · obtain ⟨t, ht⟩ := hp
        exact ⟨t, by rw [List.cons_append, ht]⟩
      · rw [htr]
        simp
      · intro h
        obtain ⟨htr2, hall⟩ := ihok h
        refine ⟨by rw [htr2]; simp, ?_⟩
        intro x hx
        rcases List.mem_cons.mp hx with rfl | hx'
        · exact hex
        · exact hall x hx'

theorem getLastBatch_ok {env : Env} {cn : String} {st : St} {l : Nat}
    (h : getLastBatch env cn st = .ok l) : l = maxBatch st.ledger := by
  unfold getLastBatch at h
  cases hc : env.getConn cn with
  | error e => rw [hc] at h; exact absurd h (by simp)
  | ok conn =>
    rw [hc] at h
    cases hl : env.lastBatchErr with
    | some e => rw [hl] at h; exact absurd h (by simp)
    | none => rw [hl] at h; exact (Except.ok.inj h).symm

theorem insertEntry_ok {env : Env} {f : String} {b : Nat} {st : St}
    (h : env.insertErr = none) :
    insertEntry env f b st =
      ({ ledger := st.ledger ++ [⟨st.nextId, f, b⟩], nextId := st.nextId + 1,
         trace := st.trace ++ [Ev.insert f b] }, .ok ()) := by
  simp [insertEntry, h]

theorem insertEntry_err {env : Env} {f : String} {b : Nat} {st : St} {e : String}
    (h : env.insertErr = some e) :
    insertEntry env f b st =
      ({ st with trace := st.trace ++ [Ev.insert f b] }, .error e) := by
  simp [insertEntry, h]

theorem deleteEntry_ok {env : Env} {f : String} {st : St}
    (h : env.deleteErr = none) :
    deleteEntry env f st =
      ({ ledger := st.ledger.filter (fun e => e.filename != f), nextId := st.nextId,
         trace := st.trace ++ [Ev.delete f] }, .ok ()) := by
  simp [deleteEntry, h]

theorem deleteEntry_err {env : Env} {f : String} {st : St} {e : String}
    (h : env.deleteErr = some e) :
    deleteEntry env f st =
      ({ st with trace := st.trace ++ [Ev.delete f] }, .error e) := by
  simp [deleteEntry, h]

/-- Behaviour of apply-one: an error leaves the ledger unchanged; success
means the file was read, every apply statement succeeded, and exactly one row
(filename, last batch + 1) was appended. -/
theorem runMigration_spec (env : Env) (f c : String) (st : St) :
    (∀ e, (runMigrationOnConnection env f c st).2 = .error e →
      (runMigrationOnConnection env f c st).1.ledger = st.ledger) ∧
    ((runMigrationOnConnection env f c st).2 = .ok () →
      ∃ data, env.readFile (migrationPath f) = .ok data ∧
        (∀ s ∈ (parseMigrationFile data).1, env.execOk s = none) ∧
        env.insertErr = none ∧
        (runMigrationOnConnection env f c st).1.ledger =
          st.ledger ++ [⟨st.nextId, f, maxBatch st.ledger + 1⟩]) := by
  cases hens : ensureMigrationsTable env (dflt c) with
  | error e =>
    have hrun : runMigrationOnConnection env f c st = (st, .error e) := by
      simp only [runMigrationOnConnection, hens]
    rw [hrun]
    exact ⟨fun _ _ => rfl, fun h => absurd h (by simp)⟩
  | ok u =>
    cases u
    cases hlb : getLastBatch env (dflt c) st with
    | error e =>
      have hrun : runMigrationOnConnection env f c st = (st, .error e) := by
        simp only [runMigrationOnConnection, hens, hlb]
      rw [hrun]
      exact ⟨fun _ _ => rfl, fun h => absurd h (by simp)⟩
    | ok last =>
      have hlast : last = maxBatch st.ledger := getLastBatch_ok hlb
      cases hrd : env.readFile (migrationPath f) with
      | error e =>
        have hrun : runMigrationOnConnection env f c st =
            (st, .error ("gagal membaca file migrasi: " ++ e)) := by
          simp only [runMigrationOnConnection, hens, hlb, hrd]
        rw [hrun]
        exact ⟨fun _ _ => rfl, fun h => absurd h (by simp)⟩
      | ok data =>
        cases hgc : env.getConn (dflt c) with
        | error e =>
          have hrun : runMigrationOnConnection env f c st =
              (st, .error ("failed to get connection '" ++ dflt c ++ "': " ++ e)) := by
            simp only [runMigrationOnConnection, hens, hlb, hrd, hgc]
          rw [hrun]
          exact ⟨fun _ _ => rfl, fun h => absurd h (by simp)⟩
        | ok conn =>
          obtain ⟨hsl, hsn, -, hsok⟩ := execStmts_spec env (parseMigrationFile data).1 st
          rcases hex : execStmts env (parseMigrationFile data).1 st with ⟨st1, r1⟩
          rw [hex] at hsl hsn hsok
          cases r1 with
          | error e1 =>
            have hrun : runMigrationOnConnection env f c st =
                (st1, .error ("gagal menjalankan migrasi: " ++ e1)) := by
              simp only [runMigrationOnConnection, hens, hlb, hrd, hgc, hex]
            rw [hrun]
            exact ⟨fun _ _ => hsl, fun h => absurd h (by simp)⟩
          | ok u1 =>
            cases u1
            obtain ⟨-, hall⟩ := hsok rfl
            cases hins : env.insertErr with
            | some e2 =>
              have hrun : runMigrationOnConnection env f c st =
                  ({ st1 with trace := st1.trace ++ [Ev.insert f (last + 1)] },
                   .error ("gagal mencatat migrasi: " ++ e2)) := by
                simp only [runMigrationOnConnection, hens, hlb, hrd, hgc, hex,
                  insertEntry_err hins]
              rw [hrun]
              exact ⟨fun _ _ => hsl, fun h => absurd h (by simp)⟩
            | none =>
              have hrun : runMigrationOnConnection env f c st =
                  ({ ledger := st1.ledger ++ [⟨st1.nextId, f, last + 1⟩],
                     nextId := st1.nextId + 1,
                     trace := st1.trace ++ [Ev.insert f (last + 1)] }, .ok ()) := by
                simp only [runMigrationOnConnection, hens, hlb, hrd, hgc, hex,
                  insertEntry_ok hins]
              rw [hrun]
              refine ⟨fun e' h => absurd h (by simp), fun _ => ⟨data, rfl, hall, rfl, ?_⟩⟩
              show st1.ledger ++ [⟨st1.nextId, f, last + 1⟩] = _
              rw [hsl, hsn, hlast]

/-- Behaviour of revert-one: an error leaves the ledger unchanged (the row is
not forgotten); success means the file was read, every revert statement
succeeded, and the filename's rows were deleted. The trace extension is
always a prefix of the file's revert statements, the whole of it on success. -/
theorem rollbackMigration_spec (env : Env) (f c : String) (st : St) :
    (∀ e, (rollbackMigrationOnConnection env f c st).2 = .error e →
      (rollbackMigrationOnConnection env f c st).1.ledger = st.ledger) ∧
    ((rollbackMigrationOnConnection env f c st).2 = .ok () →
      ∃ data, env.readFile (migrationPath f) = .ok data ∧
        (∀ s ∈ (parseMigrationFile data).2, env.execOk s = none) ∧
        env.deleteErr = none ∧
        (rollbackMigrationOnConnection env f c st).1.ledger =
          st.ledger.filter (fun en => en.filename != f)) ∧
    (rollbackMigrationOnConnection env f c st).1.ledger.Sublist st.ledger ∧
    (∃ tr, tr <+: downStmtsOf env f ∧
      execsOf (rollbackMigrationOnConnection env f c st).1.trace =
        execsOf st.trace ++ tr) ∧
    ((rollbackMigrationOnConnection env f c st).2 = .ok () →
      execsOf (rollbackMigrationOnConnection env f c st).1.trace =
        execsOf st.trace ++ downStmtsOf env f) := by
  cases hrd : env.readFile (migrationPath f) with
  | error e =>
    have hrun : rollbackMigrationOnConnection env f c st =
        (st, .error ("gagal membaca file rollback: " ++ e)) := by
      simp only [rollbackMigrationOnConnection, hrd]
    rw [hrun]
    exact ⟨fun _ _ => rfl, fun h => absurd h (by simp), List.Sublist.refl _,
      ⟨[], List.nil_prefix, by simp⟩, fun h => absurd h (by simp)⟩
  | ok data =>
    have hdown : downStmtsOf env f = (parseMigrationFile data).2 := by
      unfold downStmtsOf
      rw [hrd]
    cases hgc : env.getConn (dflt c) with
    | error e =>
      have hrun : rollbackMigrationOnConnection env f c st =
          (st, .error ("failed to get connection '" ++ dflt c ++ "': " ++ e)) := by
        simp only [rollbackMigrationOnConnection, hrd, hgc]
      rw [hrun]
      exact ⟨fun _ _ => rfl, fun h => absurd h (by simp), List.Sublist.refl _,
        ⟨[], List.nil_prefix, by simp⟩, fun h => absurd h (by simp)⟩
    | ok conn =>
      obtain ⟨hsl, hsn, ⟨p, hp, htr⟩, hsok⟩ := execStmts_spec env (parseMigrationFile data).2 st
      rcases hex : execStmts env (parseMigrationFile data).2 st with ⟨st1, r1⟩
      rw [hex] at hsl hsn hsok htr
      cases r1 with
      | error e1 =>
        have hrun : rollbackMigrationOnConnection env f c st =
            (st1, .error ("gagal rollback: " ++ e1)) := by
          simp only [rollbackMigrationOnConnection, hrd, hgc, hex]
        rw [hrun]
        refine ⟨fun _ _ => hsl, fun h => absurd h (by simp), by rw [hsl],
          ⟨p, by rw [hdown]; exact hp, by rw [htr, execsOf_append]; simp⟩,
          fun h => absurd h (by simp)⟩
      | ok u1 =>
        cases u1
        obtain ⟨htrful, hall⟩ := hsok rfl
        cases hdel : env.deleteErr with
        | some e2 =>
          have hrun : rollbackMigrationOnConnection env f c st =
              ({ st1 with trace := st1.trace ++ [Ev.delete f] },
               .error ("gagal menghapus record migrasi: " ++ e2)) := by
            simp only [rollbackMigrationOnConnection, hrd, hgc, hex, deleteEntry_err hdel]
          rw [hrun]
          refine ⟨fun _ _ => hsl, fun h => absurd h (by simp), by rw [hsl],
            ⟨p, by rw [hdown]; exact hp, ?_⟩, fun h => absurd h (by simp)⟩
          show execsOf (st1.trace ++ [Ev.delete f]) = _
          rw [execsOf_append, htr, execsOf_append]
          simp
        | none =>
          have hrun : rollbackMigrationOnConnection env f c st =
              ({ ledger := st1.ledger.filter (fun en => en.filename != f),
                 nextId := st1.nextId,
                 trace := st1.trace ++ [Ev.delete f] }, .ok ()) := by
            simp only [rollbackMigrationOnConnection, hrd, hgc, hex, deleteEntry_ok hdel]
          rw [hrun]
          refine ⟨fun e' h => absurd h (by simp), ?_, ?_, ?_, ?_⟩
          · intro _
            refine ⟨data, rfl, hall, rfl, ?_⟩
            show st1.ledger.filter _ = _
            rw [hsl]
          · show (st1.ledger.filter _).Sublist st.ledger
            rw [hsl]
            exact List.filter_sublist _
          · refine ⟨(parseMigrationFile data).2, by rw [hdown], ?_⟩
            show execsOf (st1.trace ++ [Ev.delete f]) = _
            rw [execsOf_append, htrful, execsOf_append]
            simp
          · intro _
            show execsOf (st1.trace ++ [Ev.delete f]) = _
            rw [execsOf_append, htrful, execsOf_append, hdown]
            simp

/-- mkEntries only renames: its filenames are the given names. -/
theorem mkEntries_names (b : Nat) :
    ∀ (ns : List String) (id0 : Nat), (mkEntries id0 b ns).map (fun e => e.filename) = ns := by
  intro ns
  induction ns with
  | nil => intro id0; rfl
  | cons n rest ih =>
    intro id0
    simp only [mkEntries, List.map_cons, ih]

/-- Behaviour of the apply loop of apply-all: some prefix of the given names
is recorded (consecutive ids, the shared batch number), the trace extension is
a prefix of the concatenated apply statements of the names in order, and
success means every name was processed. -/
theorem applyLoop_spec (env : Env) (b : Nat) :
    ∀ (ns : List String) (st : St),
      ∃ k, k ≤ ns.length ∧
        (applyLoop env b ns st).1.ledger = st.ledger ++ mkEntries st.nextId b (ns.take k) ∧
        (applyLoop env b ns st).1.nextId = st.nextId + k ∧
        (∃ tr, tr <+: ns.flatMap (upStmtsOf env) ∧
          execsOf (applyLoop env b ns st).1.trace = execsOf st.trace ++ tr) ∧
        ((applyLoop env b ns st).2 = .ok () → k = ns.length) := by
  intro ns
  induction ns with
  | nil =>
    intro st
    refine ⟨0, Nat.le_refl _, ?_, ?_, ⟨[], List.nil_prefix, ?_⟩, fun _ => rfl⟩
    · simp [applyLoop, mkEntries]
    · simp [applyLoop]
    · simp [applyLoop]
  | cons name rest ih =>
    intro st
    cases hrd : env.readFile (migrationPath name) with
    | error e =>
      have hrun : applyLoop env b (name :: rest) st =
          (st, .error ("gagal membaca " ++ name ++ ": " ++ e)) := by
        simp only [applyLoop, hrd]
      rw [hrun]
      refine ⟨0, Nat.zero_le _, by simp [mkEntries], by simp,
        ⟨[], List.nil_prefix, by simp⟩, fun h => absurd h (by simp)⟩
    | ok data =>
      have hup : upStmtsOf env name = parseSQLStatements (upPartOf data) := by
        unfold upStmtsOf
        rw [hrd]
      obtain ⟨hsl, hsn, ⟨p, hpp, hptr⟩, hsok⟩ :=
        execStmts_spec env (parseSQLStatements (upPartOf data)) st
      rcases hex : execStmts env (parseSQLStatements (upPartOf data)) st with ⟨st1, r1⟩
      rw [hex] at hsl hsn hsok hptr
      have hsl' : st1.ledger = st.ledger := hsl
      have hsn' : st1.nextId = st.nextId := hsn
      have hptr' : st1.trace = st.trace ++ p.map Ev.exec := hptr
      cases r1 with
      | error e1 =>
        have hrun : applyLoop env b (name :: rest) st =
            (st1, .error ("gagal " ++ name ++ ": " ++ e1)) := by
          simp only [applyLoop, hrd, hex]
        rw [hrun]
        refine ⟨0, Nat.zero_le _, by simp [mkEntries, hsl'], by simp [hsn'],
          ⟨p, ?_, by rw [hptr', execsOf_append]; simp⟩, fun h => absurd h (by simp)⟩
        rw [List.flatMap_cons, hup]
        exact prefix_extend _ hpp
      | ok u1 =>
        cases u1
        obtain ⟨htrful, hall⟩ := hsok rfl
        have htrful' : st1.trace =
            st.trace ++ (parseSQLStatements (upPartOf data)).map Ev.exec := htrful
        cases hins : env.insertErr with
        | some e2 =>
          have hrun : applyLoop env b (name :: rest) st =
              ({ st1 with trace := st1.trace ++ [Ev.insert name b] },
               .error ("gagal mencatat " ++ name ++ ": " ++ e2)) := by
            simp only [applyLoop, hrd, hex, insertEntry_err hins]
          rw [hrun]
          refine ⟨0, Nat.zero_le _, by simp [mkEntries, hsl'], by simp [hsn'],
            ⟨parseSQLStatements (upPartOf data), ?_, ?_⟩, fun h => absurd h (by simp)⟩
          · rw [List.flatMap_cons, hup]
            exact prefix_extend _ List.prefix_rfl
          · show execsOf (st1.trace ++ [Ev.insert name b]) = _
            rw [execsOf_append, htrful', execsOf_append]
            simp
        | none =>
          have hrun : applyLoop env b (name :: rest) st =
              applyLoop env b rest
                { ledger := st1.ledger ++ [⟨st1.nextId, name, b⟩],
                  nextId := st1.nextId + 1,
                  trace := st1.trace ++ [Ev.insert name b] } := by
            simp only [applyLoop, hrd, hex, insertEntry_ok hins]
          rw [hrun]
          obtain ⟨k', hk'le, ihl, ihn, ⟨tr', htr'p, htr'⟩, ihok⟩ :=
            ih { ledger := st1.ledger ++ [⟨st1.nextId, name, b⟩],
                 nextId := st1.nextId + 1,
                 trace := st1.trace ++ [Ev.insert name b] }
          have ihl' : (applyLoop env b rest
              { ledger := st1.ledger ++ [⟨st1.nextId, name, b⟩],
                nextId := st1.nextId + 1,
                trace := st1.trace ++ [Ev.insert name b] }).1.ledger =
              (st1.ledger ++ [⟨st1.nextId, name, b⟩]) ++
                mkEntries (st1.nextId + 1) b (rest.take k') := ihl
          have ihn' : (applyLoop env b rest
              { ledger := st1.ledger ++ [⟨st1.nextId, name, b⟩],
                nextId := st1.nextId + 1,
                trace := st1.trace ++ [Ev.insert name b] }).1.nextId =
              st1.nextId + 1 + k' := ihn
          have htr'' : execsOf (applyLoop env b rest
              { ledger := st1.ledger ++ [⟨st1.nextId, name, b⟩],
                nextId := st1.nextId + 1,
                trace := st1.trace ++ [Ev.insert name b] }).1.trace =
              execsOf (st1.trace ++ [Ev.insert name b]) ++ tr' := htr'
          refine ⟨k' + 1, by simpa using Nat.succ_le_succ hk'le, ?_, ?_,
            ⟨parseSQLStatements (upPartOf data) ++ tr', ?_, ?_⟩, ?_⟩
          · rw [ihl']
            simp only [List.take_succ_cons, mkEntries, hsl', hsn', List.append_assoc,
              List.cons_append, List.nil_append]
          · rw [ihn', hsn']
            omega
          · rw [List.flatMap_cons, hup]
            exact prefix_append_left _ htr'p
          · rw [htr'', execsOf_append, htrful', execsOf_append]
            simp
          · intro h
            rw [ihok h]
            simp
/-- Behaviour of apply-all: one shared batch number (max batch + 1), a prefix
of the sorted pending list is recorded, the executed statements are a prefix
of the pending files' apply statements in sorted order, and success means
every pending file was processed. -/
theorem runAll_spec (env : Env) (c : String) (st : St) :
    ∃ k, k ≤ (sortStrings (pendingList env st)).length ∧
      (runAllMigrationsOnConnection env c st).1.ledger =
        st.ledger ++ mkEntries st.nextId (maxBatch st.ledger + 1)
          ((sortStrings (pendingList env st)).take k) ∧
      (runAllMigrationsOnConnection env c st).1.nextId = st.nextId + k ∧
      (∃ tr, tr <+: (sortStrings (pendingList env st)).flatMap (upStmtsOf env) ∧
        execsOf (runAllMigrationsOnConnection env c st).1.trace =
          execsOf st.trace ++ tr) ∧
      ((runAllMigrationsOnConnection env c st).2 = .ok () →
        k = (sortStrings (pendingList env st)).length) := by
  cases hens : ensureMigrationsTable env (dflt c) with
  | error e =>
    have hrun : runAllMigrationsOnConnection env c st = (st, .error e) := by
      simp only [runAllMigrationsOnConnection, hens]
    rw [hrun]
    exact ⟨0, Nat.zero_le _, by simp [mkEntries], by simp,
      ⟨[], List.nil_prefix, by simp⟩, fun h => absurd h (by simp)⟩
  | ok u =>
    cases u
    cases hgc : env.getConn (dflt c) with
    | error e =>
      have hrun : runAllMigrationsOnConnection env c st =
          (st, .error ("failed to get connection '" ++ dflt c ++ "': " ++ e)) := by
        simp only [runAllMigrationsOnConnection, hens, hgc]
      rw [hrun]
      exact ⟨0, Nat.zero_le _, by simp [mkEntries], by simp,
        ⟨[], List.nil_prefix, by simp⟩, fun h => absurd h (by simp)⟩
    | ok conn =>
      cases hlbe : env.lastBatchErr with
      | some e =>
        have hrun : runAllMigrationsOnConnection env c st = (st, .error e) := by
          simp only [runAllMigrationsOnConnection, hens, hgc, hlbe]
        rw [hrun]
        exact ⟨0, Nat.zero_le _, by simp [mkEntries], by simp,
          ⟨[], List.nil_prefix, by simp⟩, fun h => absurd h (by simp)⟩
      | none =>
        cases hrdr : env.readDirErr with
        | some e =>
          have hrun : runAllMigrationsOnConnection env c st =
              (st, .error ("gagal baca folder: " ++ e)) := by
            simp only [runAllMigrationsOnConnection, hens, hgc, hlbe, hrdr]
          rw [hrun]
          exact ⟨0, Nat.zero_le _, by simp [mkEntries], by simp,
            ⟨[], List.nil_prefix, by simp⟩, fun h => absurd h (by simp)⟩
        | none =>
          have hrun : runAllMigrationsOnConnection env c st =
              applyLoop env (maxBatch st.ledger + 1) (sortStrings (pendingList env st)) st := by
            simp only [runAllMigrationsOnConnection, hens, hgc, hlbe, hrdr]
          rw [hrun]
          exact applyLoop_spec env (maxBatch st.ledger + 1) (sortStrings (pendingList env st)) st

/-- Behaviour of the revert loop of revert-batch: the ledger only loses rows,
the executed statements are a prefix of the rows' revert statements in the
given order, the whole of it on success. -/
theorem rollbackLoop_spec (env : Env) (cn : String) :
    ∀ (rows : List String) (st : St),
      (rollbackLoop env cn rows st).1.ledger.Sublist st.ledger ∧
      (∃ tr, tr <+: rows.flatMap (downStmtsOf env) ∧
        execsOf (rollbackLoop env cn rows st).1.trace = execsOf st.trace ++ tr) ∧
      ((rollbackLoop env cn rows st).2 = .ok () →
        execsOf (rollbackLoop env cn rows st).1.trace =
          execsOf st.trace ++ rows.flatMap (downStmtsOf env)) := by
  intro rows
  induction rows with
  | nil =>
    intro st
    refine ⟨List.Sublist.refl _, ⟨[], List.nil_prefix, by simp [rollbackLoop]⟩, ?_⟩
    intro _
    simp [rollbackLoop]
  | cons f rest ih =>
    intro st
    obtain ⟨-, -, hsub, ⟨p, hpd, hptr⟩, hokfull⟩ := rollbackMigration_spec env f cn st
    rcases hstep : rollbackMigrationOnConnection env f cn st with ⟨st1, r1⟩
    rw [hstep] at hsub hptr hokfull
    have hsub' : st1.ledger.Sublist st.ledger := hsub
    have hptr' : execsOf st1.trace = execsOf st.trace ++ p := hptr
    cases r1 with
    | error e =>
      have hrun : rollbackLoop env cn (f :: rest) st = (st1, .error e) := by
        simp only [rollbackLoop, hstep]
      rw [hrun]
      refine ⟨hsub', ⟨p, ?_, hptr'⟩, fun h => absurd h (by simp)⟩
      rw [List.flatMap_cons]
      exact prefix_extend _ hpd
    | ok u1 =>
      cases u1
      have hfull : execsOf st1.trace = execsOf st.trace ++ downStmtsOf env f := hokfull rfl
      have hrun : rollbackLoop env cn (f :: rest) st = rollbackLoop env cn rest st1 := by
        simp only [rollbackLoop, hstep]
      rw [hrun]
      obtain ⟨ihsub, ⟨tr', htr'p, htr'⟩, ihok⟩ := ih st1
      refine ⟨ihsub.trans hsub', ⟨downStmtsOf env f ++ tr', ?_, ?_⟩, ?_⟩
      · rw [List.flatMap_cons]
        exact prefix_append_left _ htr'p
      · rw [htr', hfull, List.append_assoc]
      · intro h
        rw [ihok h, hfull, List.flatMap_cons, List.append_assoc]

/-- Behaviour of revert-batch: the ledger only loses rows; the executed
statements are a prefix of the revert statements of the batch's rows (most
recently inserted first), the whole of it on success. -/
theorem rollbackBatch_spec (env : Env) (b : Nat) (c : String) (st : St) :
    (rollbackBatchOnConnection env b c st).1.ledger.Sublist st.ledger ∧
    (∃ tr, tr <+: (batchRows env st b).flatMap (downStmtsOf env) ∧
      execsOf (rollbackBatchOnConnection env b c st).1.trace =
        execsOf st.trace ++ tr) ∧
    ((rollbackBatchOnConnection env b c st).2 = .ok () →
      execsOf (rollbackBatchOnConnection env b c st).1.trace =
        execsOf st.trace ++ (batchRows env st b).flatMap (downStmtsOf env)) := by
  cases hens : ensureMigrationsTable env (dflt c) with
  | error e =>
    have hrun : rollbackBatchOnConnection env b c st = (st, .error e) := by
      simp only [rollbackBatchOnConnection, hens]
    rw [hrun]
    exact ⟨List.Sublist.refl _, ⟨[], List.nil_prefix, by simp⟩, fun h => absurd h (by simp)⟩
  | ok u =>
    cases u
    cases hgc : env.getConn (dflt c) with
    | error e =>
      have hrun : rollbackBatchOnConnection env b c st =
          (st, .error ("failed to get connection '" ++ dflt c ++ "': " ++ e)) := by
        simp only [rollbackBatchOnConnection, hens, hgc]
      rw [hrun]
      exact ⟨List.Sublist.refl _, ⟨[], List.nil_prefix, by simp⟩, fun h => absurd h (by simp)⟩
    | ok conn =>
      have hrun : rollbackBatchOnConnection env b c st =
          rollbackLoop env (dflt c) (batchRows env st b) st := by
        simp only [rollbackBatchOnConnection, hens, hgc]
      rw [hrun]
      exact rollbackLoop_spec env (dflt c) (batchRows env st b) st

theorem rollbackAllLoop_sub (env : Env) (cn : String) :
    ∀ (n : Nat) (st : St), (rollbackAllLoop env cn n st).1.ledger.Sublist st.ledger := by
  intro n
  induction n with
  | zero => intro st; exact List.Sublist.refl _
  | succ m ih =>
    intro st
    obtain ⟨hsub, -, -⟩ := rollbackBatch_spec env (m + 1) cn st
    rcases hstep : rollbackBatchOnConnection env (m + 1) cn st with ⟨st1, r1⟩
    rw [hstep] at hsub
    have hsub' : st1.ledger.Sublist st.ledger := hsub
    cases r1 with
    | error e =>
      have hrun : rollbackAllLoop env cn (m + 1) st = (st1, .error e) := by
        simp only [rollbackAllLoop, hstep]
      rw [hrun]
      exact hsub'
    | ok u1 =>
      cases u1
      have hrun : rollbackAllLoop env cn (m + 1) st = rollbackAllLoop env cn m st1 := by
        simp only [rollbackAllLoop, hstep]
      rw [hrun]
      exact (ih st1).trans hsub'

theorem runAllRollbacks_sub (env : Env) (c : String) (st : St) :
    (runAllRollbacksOnConnection env c st).1.ledger.Sublist st.ledger := by
  cases hens : ensureMigrationsTable env (dflt c) with
  | error e =>
    have hrun : runAllRollbacksOnConnection env c st = (st, .error e) := by
      simp only [runAllRollbacksOnConnection, hens]
    rw [hrun]
  | ok u =>
    cases u
    have hrun : runAllRollbacksOnConnection env c st =
        rollbackAllLoop env (dflt c) (lastBatchOrZero env (dflt c) st) st := by
      simp only [runAllRollbacksOnConnection, hens]
    rw [hrun]
    exact rollbackAllLoop_sub env (dflt c) (lastBatchOrZero env (dflt c) st) st

theorem rollbackLast_sub (env : Env) (c : String) (st : St) :
    (rollbackLastBatchOnConnection env c st).1.ledger.Sublist st.ledger := by
  by_cases h : lastBatchOrZero env (dflt c) st = 0
  · have hrun : rollbackLastBatchOnConnection env c st = (st, .ok ()) := by
      simp only [rollbackLastBatchOnConnection, if_pos h]
    rw [hrun]
  · have hrun : rollbackLastBatchOnConnection env c st =
        rollbackBatchOnConnection env (lastBatchOrZero env (dflt c) st) (dflt c) st := by
      simp only [rollbackLastBatchOnConnection, if_neg h]
    rw [hrun]
    exact (rollbackBatch_spec env (lastBatchOrZero env (dflt c) st) (dflt c) st).1

theorem countApplied_eq_zero {st : St} {n : String} :
    countApplied st n = 0 ↔ n ∉ ledgerNames st := by
  unfold countApplied ledgerNames
  rw [List.countP_eq_zero]
  constructor
  · intro h hn
    obtain ⟨e, he, hfn⟩ := List.mem_map.mp hn
    have := h e he
    simp [hfn] at this
  · intro h e he
    simp only [beq_iff_eq]
    intro hfe
    exact h (List.mem_map.mpr ⟨e, he, hfe⟩)

theorem trimSuffix_spec {x sfx : String} (h : hasSuffixStr x sfx = true) :
    (trimSuffixStr x sfx).data ++ sfx.data = x.data := by
  unfold hasSuffixStr at h
  have hsuf : sfx.data <:+ x.data := by simpa using h
  obtain ⟨t, ht⟩ := hsuf
  unfold trimSuffixStr
  rw [if_pos (by unfold hasSuffixStr; simpa using ⟨t, ht⟩)]
  show x.data.take (x.data.length - sfx.data.length) ++ sfx.data = x.data
  rw [← ht]
  have hlen : (t ++ sfx.data).length - sfx.data.length = t.length := by
    simp [List.length_append]
  rw [hlen, List.take_left]

theorem trimSuffix_inj {x y sfx : String} (hx : hasSuffixStr x sfx = true)
    (hy : hasSuffixStr y sfx = true) (h : trimSuffixStr x sfx = trimSuffixStr y sfx) :
    x = y := by
  have h1 := trimSuffix_spec hx
  have h2 := trimSuffix_spec hy
  have hdata : x.data = y.data := by
    rw [← h1, ← h2, h]
  exact congrArg String.mk hdata

theorem pendingCount_eq {env : Env} {st : St} {n : String}
    (h : env.countErr n = none) : pendingCount env st n = countApplied st n := by
  unfold pendingCount
  rw [h]

/-- With error-free count queries, the pending list is exactly the trimmed
`.sql` directory entries whose filename is not in the ledger. -/
theorem pendingList_mem (env : Env) (st : St)
    (hcount : ∀ n, env.countErr n = none) (n : String) :
    n ∈ pendingList env st ↔
      (∃ f ∈ env.dirEntries, hasSuffixStr f ".sql" = true ∧ trimSuffixStr f ".sql" = n) ∧
        n ∉ ledgerNames st := by
  unfold pendingList
  rw [List.mem_filterMap]
  constructor
  · rintro ⟨f, hf, hsome⟩
    by_cases hsfx : hasSuffixStr f ".sql" = true
    · rw [if_pos hsfx] at hsome
      rw [pendingCount_eq (hcount _)] at hsome
      by_cases hcnt : countApplied st (trimSuffixStr f ".sql") = 0
      · rw [if_pos hcnt] at hsome
        have hn : trimSuffixStr f ".sql" = n := by simpa using hsome
        subst hn
        exact ⟨⟨f, hf, hsfx, rfl⟩, countApplied_eq_zero.mp hcnt⟩
      · rw [if_neg hcnt] at hsome
        exact absurd hsome (by simp)
    · rw [if_neg hsfx] at hsome
      exact absurd hsome (by simp)
  · rintro ⟨⟨f, hf, hsfx, htrim⟩, hnot⟩
    refine ⟨f, hf, ?_⟩
    rw [if_pos hsfx, pendingCount_eq (hcount _), htrim,
      if_pos (countApplied_eq_zero.mpr hnot)]

theorem pendingList_nodup (env : Env) (st : St) (hdir : env.dirEntries.Nodup) :
    (pendingList env st).Nodup := by
  unfold pendingList
  apply hdir.filterMap
  intro a a' n ha ha'
  by_cases hsa : hasSuffixStr a ".sql" = true
  · rw [if_pos hsa] at ha
    by_cases hca : pendingCount env st (trimSuffixStr a ".sql") = 0
    · rw [if_pos hca] at ha
      by_cases hsa' : hasSuffixStr a' ".sql" = true
      · rw [if_pos hsa'] at ha'
        by_cases hca' : pendingCount env st (trimSuffixStr a' ".sql") = 0
        · rw [if_pos hca'] at ha'
          have h1 : trimSuffixStr a ".sql" = n := by simpa using ha
          have h2 : trimSuffixStr a' ".sql" = n := by simpa using ha'
          exact trimSuffix_inj hsa hsa' (h1.trans h2.symm)
        · rw [if_neg hca'] at ha'
          exact absurd ha' (by simp)
      · rw [if_neg hsa'] at ha'
        exact absurd ha' (by simp)
    · rw [if_neg hca] at ha
      exact absurd ha (by simp)
  · rw [if_neg hsa] at ha
    exact absurd ha (by simp)

theorem sortStrings_perm (l : List String) : List.Perm (sortStrings l) l :=
  List.perm_insertionSort _ l

theorem sortStrings_sorted (l : List String) :
    List.Pairwise (fun a b : String => a ≤ b) (sortStrings l) :=
  List.sorted_insertionSort _ l

/-- apply-all preserves filename uniqueness of the ledger: the inserted names
are distinct pending names, none of which is already present. -/
theorem runAll_nodup (env : Env) (c : String) (st : St)
    (hdir : env.dirEntries.Nodup) (hcount : ∀ n, env.countErr n = none)
    (h : (ledgerNames st).Nodup) :
    (ledgerNames (runAllMigrationsOnConnection env c st).1).Nodup := by
  obtain ⟨k, -, hl, -, -, -⟩ := runAll_spec env c st
  unfold ledgerNames
  rw [hl, List.map_append, mkEntries_names]
  refine List.Nodup.append h ?_ ?_
  · refine List.Nodup.sublist (List.take_sublist _ _) ?_
    exact ((sortStrings_perm (pendingList env st)).nodup_iff).mpr
      (pendingList_nodup env st hdir)
  · intro a ha hmem
    have h1 : a ∈ sortStrings (pendingList env st) :=
      (List.take_sublist _ _).mem hmem
    have h2 : a ∈ pendingList env st := (sortStrings_perm _).mem_iff.mp h1
    exact ((pendingList_mem env st hcount a).mp h2).2 ha

theorem truncate_names (env : Env) (pg : Bool) (st : St) :
    ledgerNames (truncateLedger env pg st) = ledgerNames st ∨
      ledgerNames (truncateLedger env pg st) = [] := by
  unfold truncateLedger ledgerNames
  cases env.truncErr with
  | some e => left; rfl
  | none => right; rfl

theorem fresh_nodup (env : Env) (c : String) (st : St)
    (hdir : env.dirEntries.Nodup) (hcount : ∀ n, env.countErr n = none)
    (h : (ledgerNames st).Nodup) :
    (ledgerNames (freshMigrationsOnConnection env c st).1).Nodup := by
  cases hens : ensureMigrationsTable env (dflt c) with
  | error e =>
    have hrun : freshMigrationsOnConnection env c st = (st, .error e) := by
      simp only [freshMigrationsOnConnection, hens]
    rw [hrun]
    exact h
  | ok u =>
    cases u
    cases hgc : env.getConn (dflt c) with
    | error e =>
      have hrun : freshMigrationsOnConnection env c st =
          (st, .error ("failed to get connection '" ++ dflt c ++ "': " ++ e)) := by
        simp only [freshMigrationsOnConnection, hens, hgc]
      rw [hrun]
      exact h
    | ok conn =>
      have hrun : freshMigrationsOnConnection env c st =
          runAllMigrationsOnConnection env (dflt c)
            (truncateLedger env conn.isPostgreSQL st) := by
        simp only [freshMigrationsOnConnection, hens, hgc]
      rw [hrun]
      apply runAll_nodup env (dflt c) _ hdir hcount
      rcases truncate_names env conn.isPostgreSQL st with ht | ht
      · rw [ht]; exact h
      · rw [ht]; exact List.nodup_nil

/-- Each single engine operation preserves filename uniqueness, provided
apply-one is only invoked for a filename not currently applied. -/
theorem runOp_nodup (env : Env) (c : String)
    (hdir : env.dirEntries.Nodup) (hcount : ∀ n, env.countErr n = none) :
    ∀ (op : Op) (st : St), (ledgerNames st).Nodup → opSafe op st →
      (ledgerNames (runOp env c op st).1).Nodup := by
  intro op st h hsafe
  cases op with
  | applyOne f =>
    obtain ⟨herr, hok⟩ := runMigration_spec env f c st
    show (ledgerNames (runMigrationOnConnection env f c st).1).Nodup
    cases hres : (runMigrationOnConnection env f c st).2 with
    | error e =>
      unfold ledgerNames
      rw [herr e hres]
      exact h
    | ok u =>
      cases u
      obtain ⟨data, -, -, -, hl⟩ := hok hres
      unfold ledgerNames
      rw [hl, List.map_append]
      refine List.Nodup.append h (by simp) ?_
      intro a ha hmem
      simp only [List.map_cons, List.map_nil, List.mem_singleton] at hmem
      subst hmem
      exact hsafe ha
  | applyAll => exact runAll_nodup env c st hdir hcount h
  | revertOne f =>
    unfold ledgerNames at h ⊢
    exact List.Nodup.sublist
      (List.Sublist.map (fun e => e.filename) (rollbackMigration_spec env f c st).2.2.1) h
  | revertBatch b =>
    unfold ledgerNames at h ⊢
    exact List.Nodup.sublist
      (List.Sublist.map (fun e => e.filename) (rollbackBatch_spec env b c st).1) h
  | revertLast =>
    unfold ledgerNames at h ⊢
    exact List.Nodup.sublist
      (List.Sublist.map (fun e => e.filename) (rollbackLast_sub env c st)) h
  | revertAll =>
    unfold ledgerNames at h ⊢
    exact List.Nodup.sublist
      (List.Sublist.map (fun e => e.filename) (runAllRollbacks_sub env c st)) h
  | fresh => exact fresh_nodup env c st hdir hcount h

/-- Filename uniqueness is preserved along any safe operation sequence. -/
theorem runOps_nodup (env : Env) (c : String)
    (hdir : env.dirEntries.Nodup) (hcount : ∀ n, env.countErr n = none) :
    ∀ (ops : List Op) (st : St), (ledgerNames st).Nodup → safeOps env c ops st →
      (ledgerNames (runOps env c ops st)).Nodup := by
  intro ops
  induction ops with
  | nil => intro st h _; exact h
  | cons op rest ih =>
    intro st h hsafe
    obtain ⟨hop, hrest⟩ := hsafe
    exact ih (runOp env c op st).1 (runOp_nodup env c hdir hcount op st h hop) hrest

/-- When the ledger exists, the connection resolves and the TRUNCATE
succeeds, fresh equals apply-all started from an emptied ledger, after
recording the dialect-chosen truncation; its statement executions are a
prefix of the pending files' apply statements (so no revert statement of any
change-set is executed). -/
theorem fresh_spec (env : Env) (c : String) (st : St) (conn : Conn)
    (hens : ensureMigrationsTable env (dflt c) = .ok ())
    (hconn : env.getConn (dflt c) = .ok conn)
    (htrunc : env.truncErr = none) :
    freshMigrationsOnConnection env c st =
      runAllMigrationsOnConnection env (dflt c)
        { ledger := [], nextId := 1,
          trace := st.trace ++ [Ev.truncate conn.isPostgreSQL] } ∧
    (∃ tr, tr <+: (sortStrings (pendingList env
        { ledger := [], nextId := 1,
          trace := st.trace ++ [Ev.truncate conn.isPostgreSQL] })).flatMap (upStmtsOf env) ∧
      execsOf (freshMigrationsOnConnection env c st).1.trace =
        execsOf st.trace ++ tr) := by
  have htl : truncateLedger env conn.isPostgreSQL st =
      { ledger := [], nextId := 1,
        trace := st.trace ++ [Ev.truncate conn.isPostgreSQL] } := by
    simp [truncateLedger, htrunc]
  have hrun : freshMigrationsOnConnection env c st =
      runAllMigrationsOnConnection env (dflt c)
        (truncateLedger env conn.isPostgreSQL st) := by
    simp only [freshMigrationsOnConnection, hens, hconn]
  refine ⟨by rw [hrun, htl], ?_⟩
  obtain ⟨k, -, -, -, ⟨tr, htrp, htr⟩, -⟩ := runAll_spec env (dflt c)
    { ledger := [], nextId := 1, trace := st.trace ++ [Ev.truncate conn.isPostgreSQL] }
  refine ⟨tr, htrp, ?_⟩
  rw [hrun, htl, htr]
  show execsOf (st.trace ++ [Ev.truncate conn.isPostgreSQL]) ++ tr = _
  rw [execsOf_append]
  simp

theorem lastBatchOrZero_err {env : Env} {cn : String} {st : St} {e : String}
    (h : getLastBatch env cn st = .error e) : lastBatchOrZero env cn st = 0 := by
  unfold lastBatchOrZero
  rw [h]

/-- A failing last-batch query makes revert-last-batch succeed silently,
reporting nothing to do. -/
theorem rollbackLast_swallow (env : Env) (c : String) (st : St) (e : String)
    (h : getLastBatch env (dflt c) st = .error e) :
    rollbackLastBatchOnConnection env c st = (st, .ok ()) := by
  simp only [rollbackLastBatchOnConnection, if_pos (lastBatchOrZero_err h)]

/-- A failing last-batch query makes revert-all succeed without reverting
anything (the loop starts at the zero value 0). -/
theorem runAllRollbacks_swallow (env : Env) (c : String) (st : St) (e : String)
    (hens : ensureMigrationsTable env (dflt c) = .ok ())
    (h : getLastBatch env (dflt c) st = .error e) :
    runAllRollbacksOnConnection env c st = (st, .ok ()) := by
  simp only [runAllRollbacksOnConnection, hens, lastBatchOrZero_err h, rollbackAllLoop]

theorem batchRows_scanErr {env : Env} {st : St} {b : Nat} {e : String}
    (h : env.scanErr = some e) : batchRows env st b = [] := by
  unfold batchRows
  rw [h]

/-- A failing batch-listing query makes revert-batch succeed having reverted
nothing (the rows slice keeps its zero value, the empty list). -/
theorem rollbackBatch_swallow (env : Env) (b : Nat) (c : String) (st : St)
    (conn : Conn) (e : String)
    (hens : ensureMigrationsTable env (dflt c) = .ok ())
    (hconn : env.getConn (dflt c) = .ok conn)
    (h : env.scanErr = some e) :
    rollbackBatchOnConnection env b c st = (st, .ok ()) := by
  simp only [rollbackBatchOnConnection, hens, hconn, batchRows_scanErr h, rollbackLoop]

/-- A failing TRUNCATE is ignored: fresh proceeds to apply-all with the
ledger left untouched. -/
theorem fresh_truncSwallow (env : Env) (c : String) (st : St) (conn : Conn) (e : String)
    (hens : ensureMigrationsTable env (dflt c) = .ok ())
    (hconn : env.getConn (dflt c) = .ok conn)
    (ht : env.truncErr = some e) :
    freshMigrationsOnConnection env c st =
      runAllMigrationsOnConnection env (dflt c)
        { st with trace := st.trace ++ [Ev.truncate conn.isPostgreSQL] } := by
  simp only [freshMigrationsOnConnection, hens, hconn, truncateLedger, ht]

theorem hasSuffix_append (a s : String) : hasSuffixStr (a ++ s) s = true := by
  unfold hasSuffixStr
  rw [String.data_append]
  simp

theorem trimSuffix_append (a s : String) : trimSuffixStr (a ++ s) s = a := by
  unfold trimSuffixStr
  rw [if_pos (hasSuffix_append a s)]
  show String.mk ((a ++ s).data.take ((a ++ s).data.length - s.data.length)) = a
  rw [String.data_append]
  have hlen : (a.data ++ s.data).length - s.data.length = a.data.length := by
    simp [List.length_append]
  rw [hlen, List.take_left]

/-- A failing applied-count query is ignored: the file counts as pending even
when its filename is already in the ledger. -/
theorem countErr_pending (env : Env) (st : St) (nm : String) (e : String)
    (he : env.countErr nm = some e) (hf : (nm ++ ".sql") ∈ env.dirEntries) :
    nm ∈ pendingList env st := by
  unfold pendingList
  apply List.mem_filterMap.mpr
  refine ⟨nm ++ ".sql", hf, ?_⟩
  rw [if_pos (hasSuffix_append nm ".sql"), trimSuffix_append nm ".sql"]
  have hpc : pendingCount env st nm = 0 := by
    unfold pendingCount
    rw [he]
  rw [if_pos hpc]

/-- A failed connection resolution never stores anything in the registry:
the state is unchanged, and a later GetConnection for the same name retries
the full Connect. -/
theorem managerConnect_error (env : MgrEnv) (st : MgrSt) (name : String)
    (st' : MgrSt) (e : String)
    (h : managerConnect env st name = (st', .error e)) :
    st' = st ∧ managerGetConnection env st' name = managerConnect env st name := by
  unfold managerConnect at h
  cases hlook : lookupConn st name with
  | some conn =>
    rw [hlook] at h
    exact absurd (congrArg Prod.snd h) (by simp)
  | none =>
    rw [hlook] at h
    have hget : managerGetConnection env st name = managerConnect env st name := by
      simp only [managerGetConnection, hlook]
    have hst : st' = st := by
      repeat' split at h
      all_goals injection h with h1 h2
      all_goals first
        | exact h1.symm
        | exact Except.noConfusion h2
    exact ⟨hst, by rw [hst]; exact hget⟩

/-! ## Concrete fixtures used by witnesses and counterexamples -/

/-- A small change-set file: one apply statement, one revert statement. -/
def mFileContent : String := "-- +++ UP Migration\nCREATE T;\n-- --- DOWN Migration\nDROP T;"

/-- An environment in which every database and filesystem call succeeds and
the migrations directory holds the single change-set file a.sql. -/
def envOkAll : Env :=
  { getConn := fun _ => .ok ⟨false⟩
    execOk := fun _ => none
    lastBatchErr := none
    countErr := fun _ => none
    scanErr := none
    insertErr := none
    deleteErr := none
    truncErr := none
    dirEntries := ["a.sql"]
    readDirErr := none
    readFile := fun p => if p = migrationPath "a" then .ok mFileContent
      else .error "open: no such file" }

/-- The empty starting state: empty ledger, fresh id counter, empty trace. -/
def st0 : St := ⟨[], 1, []⟩

/-- envOkAll with a failing MAX(batch) query. -/
def envLB : Env := { envOkAll with lastBatchErr := some "connection lost" }

/-- envOkAll with all four silently-ignored queries failing. -/
def envSwallow : Env :=
  { envOkAll with
    lastBatchErr := some "e1"
    scanErr := some "e2"
    truncErr := some "e3"
    countErr := fun n => if n = "a" then some "e4" else none }

/-- envOkAll in which executing the apply statement of a.sql fails. -/
def envFail : Env :=
  { envOkAll with execOk := fun s => if s = "CREATE T" then some "boom" else none }

/-- An environment in which no connection can be resolved. -/
def envNoConn : Env := { envOkAll with getConn := fun _ => .error "no configuration" }

/-- Change-set a: apply CA, revert DA. -/
def aContent : String := "-- +++ UP Migration\nCA;\n-- --- DOWN Migration\nDA;"

/-- Change-set b: apply CB, revert DB. -/
def bContent : String := "-- +++ UP Migration\nCB;\n-- --- DOWN Migration\nDB;"

/-- Two change-set files a.sql and b.sql, everything succeeding. -/
def envAB : Env :=
  { envOkAll with
    dirEntries := ["a.sql", "b.sql"]
    readFile := fun p =>
      if p = migrationPath "a" then .ok aContent
      else if p = migrationPath "b" then .ok bContent
      else .error "open: no such file" }

/-- A ledger on which a then b were applied in one batch. -/
def stAB : St := ⟨[⟨1, "a", 1⟩, ⟨2, "b", 1⟩], 3, []⟩

/-- A registry environment with no configured connections. -/
def mgrEnv0 : MgrEnv := ⟨[], fun _ => none, fun _ => none, fun _ => none⟩

/-! ## Claims -/

/-- Claim C1, counterexample: invoking apply-one twice for the same filename
from an empty ledger produces two ledger rows with that filename — the
at-most-once invariant fails as stated. -/
theorem duplicate_filename_after_double_apply_one :
    ledgerNames (runOps envOkAll "" [Op.applyOne "a", Op.applyOne "a"] st0) = ["a", "a"] ∧
    ¬ (ledgerNames (runOps envOkAll "" [Op.applyOne "a", Op.applyOne "a"] st0)).Nodup := by
  decide

/-- Claim C1 (amended): a filename appears at most once in the ledger under
every sequence of engine operations, provided apply-one is never invoked for
a filename already present (apply-one performs no check-before-insert) and
the applied-count queries of apply-all do not error. -/
theorem ledger_filenames_unique_of_safe_ops (env : Env) (c : String) (ops : List Op)
    (st : St) (hdir : env.dirEntries.Nodup) (hcount : ∀ n, env.countErr n = none)
    (h : (ledgerNames st).Nodup) (hsafe : safeOps env c ops st) :
    (ledgerNames (runOps env c ops st)).Nodup :=
  runOps_nodup env c hdir hcount ops st h hsafe

theorem ledger_filenames_unique_of_safe_ops_witness :
    (ledgerNames (runOps envOkAll "" [Op.applyOne "a", Op.revertOne "a"] st0)).Nodup := by
  have hsafe : safeOps envOkAll "" [Op.applyOne "a", Op.revertOne "a"] st0 :=
    ⟨by show "a" ∉ ledgerNames st0; decide, trivial, trivial⟩
  exact ledger_filenames_unique_of_safe_ops envOkAll "" [Op.applyOne "a", Op.revertOne "a"]
    st0 (by decide) (fun n => rfl) (by decide) hsafe

/-- Claim C2, counterexample: the last-batch query fails, yet revert-last-batch
returns success — the error from this underlying step is silently swallowed,
not returned to the caller. -/
theorem last_batch_error_swallowed :
    getLastBatch envLB (dflt "") st0 = .error "connection lost" ∧
    rollbackLastBatchOnConnection envLB "" st0 = (st0, .ok ()) := by
  exact ⟨rfl, rfl⟩

/-- Claim C2 (amended): errors of the four steps named by the claim are in
fact silently ignored — a failing last-batch query makes revert-last-batch
and revert-all succeed having done nothing, a failing batch-listing query
makes revert-batch succeed having reverted nothing, a failing truncate is
ignored by fresh (which proceeds with the ledger untouched), and a failing
applied-count query makes apply-all treat an already-applied file as
pending. -/
theorem named_step_errors_ignored (env : Env) (c : String) (st : St) (conn : Conn)
    (b : Nat) (nm e1 e2 e3 e4 : String)
    (hens : ensureMigrationsTable env (dflt c) = .ok ())
    (hconn : env.getConn (dflt c) = .ok conn)
    (h1 : getLastBatch env (dflt c) st = .error e1)
    (h2 : env.scanErr = some e2)
    (h3 : env.truncErr = some e3)
    (h4 : env.countErr nm = some e4)
    (hf : (nm ++ ".sql") ∈ env.dirEntries) :
    rollbackLastBatchOnConnection env c st = (st, .ok ()) ∧
    runAllRollbacksOnConnection env c st = (st, .ok ()) ∧
    rollbackBatchOnConnection env b c st = (st, .ok ()) ∧
    freshMigrationsOnConnection env c st =
      runAllMigrationsOnConnection env (dflt c)
        { st with trace := st.trace ++ [Ev.truncate conn.isPostgreSQL] } ∧
    nm ∈ pendingList env st :=
  ⟨rollbackLast_swallow env c st e1 h1,
   runAllRollbacks_swallow env c st e1 hens h1,
   rollbackBatch_swallow env b c st conn e2 hens hconn h2,
   fresh_truncSwallow env c st conn e3 hens hconn h3,
   countErr_pending env st nm e4 h4 hf⟩

theorem named_step_errors_ignored_witness :
    rollbackLastBatchOnConnection envSwallow "" st0 = (st0, .ok ()) ∧
    runAllRollbacksOnConnection envSwallow "" st0 = (st0, .ok ()) ∧
    rollbackBatchOnConnection envSwallow 1 "" st0 = (st0, .ok ()) ∧
    freshMigrationsOnConnection envSwallow "" st0 =
      runAllMigrationsOnConnection envSwallow (dflt "")
        { st0 with trace := st0.trace ++ [Ev.truncate (false : Bool)] } ∧
    "a" ∈ pendingList envSwallow st0 :=
  named_step_errors_ignored envSwallow "" st0 ⟨false⟩ 1 "a" "e1" "e2" "e3" "e4"
    rfl rfl rfl rfl rfl rfl (by decide)

/-- Claim C3: apply-all sorts the pending list lexically ascending; with
error-free count queries the pending list is exactly the trimmed `.sql`
directory entries whose filename is not in the ledger; a prefix of that
sorted list is recorded, every row carrying the one shared batch number
(max batch + 1) with consecutive ids; the executed statements are a prefix
of the pending files' apply statements in sorted order (so a failure aborts
immediately, already-recorded rows staying in the ledger and the remaining
files unattempted); success means the whole pending list was processed. -/
theorem apply_all_pending_sorted_shared_batch (env : Env) (c : String) (st : St)
    (hcount : ∀ n, env.countErr n = none) :
    List.Pairwise (fun a b : String => a ≤ b) (sortStrings (pendingList env st)) ∧
    (∀ n, n ∈ pendingList env st ↔
      (∃ f ∈ env.dirEntries, hasSuffixStr f ".sql" = true ∧ trimSuffixStr f ".sql" = n) ∧
        n ∉ ledgerNames st) ∧
    ∃ k, k ≤ (sortStrings (pendingList env st)).length ∧
      (runAllMigrationsOnConnection env c st).1.ledger =
        st.ledger ++ mkEntries st.nextId (maxBatch st.ledger + 1)
          ((sortStrings (pendingList env st)).take k) ∧
      (∃ tr, tr <+: (sortStrings (pendingList env st)).flatMap (upStmtsOf env) ∧
        execsOf (runAllMigrationsOnConnection env c st).1.trace =
          execsOf st.trace ++ tr) ∧
      ((runAllMigrationsOnConnection env c st).2 = .ok () →
        k = (sortStrings (pendingList env st)).length) := by
  obtain ⟨k, hk, hl, -, htr, hok⟩ := runAll_spec env c st
  exact ⟨sortStrings_sorted _, fun n => pendingList_mem env st hcount n,
    k, hk, hl, htr, hok⟩

theorem apply_all_pending_sorted_shared_batch_witness :
    (runAllMigrationsOnConnection envOkAll "" st0).1.ledger =
      st0.ledger ++ mkEntries st0.nextId (maxBatch st0.ledger + 1)
        ((sortStrings (pendingList envOkAll st0)).take 1) ∧
    sortStrings (pendingList envOkAll st0) = ["a"] := by
  obtain ⟨-, -, k, hk, hl, -, hok⟩ :=
    apply_all_pending_sorted_shared_batch envOkAll "" st0 (fun n => rfl)
  have hkval : k = (sortStrings (pendingList envOkAll st0)).length := hok (by rfl)
  have hlen : (sortStrings (pendingList envOkAll st0)).length = 1 := by decide
  rw [hkval, hlen] at hl
  exact ⟨hl, by decide⟩

/-- Claim C4: apply-one writes its ledger row only after every apply
statement succeeds (on any error the ledger is unchanged and the error is
returned), and revert-one removes the filename's row only after every revert
statement succeeds (on any error the row is not deleted). -/
theorem ledger_gated_on_full_statement_success (env : Env) (f c : String) (st : St) :
    (∀ e, (runMigrationOnConnection env f c st).2 = .error e →
      (runMigrationOnConnection env f c st).1.ledger = st.ledger) ∧
    ((runMigrationOnConnection env f c st).2 = .ok () →
      ∃ data, env.readFile (migrationPath f) = .ok data ∧
        (∀ s ∈ (parseMigrationFile data).1, env.execOk s = none) ∧
        env.insertErr = none ∧
        (runMigrationOnConnection env f c st).1.ledger =
          st.ledger ++ [⟨st.nextId, f, maxBatch st.ledger + 1⟩]) ∧
    (∀ e, (rollbackMigrationOnConnection env f c st).2 = .error e →
      (rollbackMigrationOnConnection env f c st).1.ledger = st.ledger) ∧
    ((rollbackMigrationOnConnection env f c st).2 = .ok () →
      ∃ data, env.readFile (migrationPath f) = .ok data ∧
        (∀ s ∈ (parseMigrationFile data).2, env.execOk s = none) ∧
        env.deleteErr = none ∧
        (rollbackMigrationOnConnection env f c st).1.ledger =
          st.ledger.filter (fun en => en.filename != f)) :=
  ⟨(runMigration_spec env f c st).1, (runMigration_spec env f c st).2,
   (rollbackMigration_spec env f c st).1, (rollbackMigration_spec env f c st).2.1⟩

theorem ledger_gated_on_full_statement_success_witness :
    (runMigrationOnConnection envFail "a" "" st0).1.ledger = st0.ledger ∧
    (runMigrationOnConnection envOkAll "a" "" st0).1.ledger =
      st0.ledger ++ [⟨st0.nextId, "a", maxBatch st0.ledger + 1⟩] := by
  constructor
  · obtain ⟨herr, -, -, -⟩ := ledger_gated_on_full_statement_success envFail "a" "" st0
    exact herr "gagal menjalankan migrasi: boom" (by rfl)
  · obtain ⟨-, hok, -, -⟩ := ledger_gated_on_full_statement_success envOkAll "a" "" st0
    obtain ⟨data, -, -, -, hl⟩ := hok (by rfl)
    exact hl

/-- Claim C5: with an error-free listing query, revert-batch obtains the
batch's filenames in reverse insertion order (descending id over the
insertion-ordered ledger) and reverts them sequentially in that order — the
executed statements are a prefix of the concatenated revert statements of
those rows (so the first failure aborts the rest), the whole of it on
success. -/
theorem revert_batch_reverse_order (env : Env) (b : Nat) (c : String) (st : St)
    (hscan : env.scanErr = none) :
    batchRows env st b =
      ((st.ledger.filter (fun e => e.batch == b)).reverse).map (fun e => e.filename) ∧
    (∃ tr, tr <+: (batchRows env st b).flatMap (downStmtsOf env) ∧
      execsOf (rollbackBatchOnConnection env b c st).1.trace =
        execsOf st.trace ++ tr) ∧
    ((rollbackBatchOnConnection env b c st).2 = .ok () →
      execsOf (rollbackBatchOnConnection env b c st).1.trace =
        execsOf st.trace ++ (batchRows env st b).flatMap (downStmtsOf env)) := by
  refine ⟨?_, (rollbackBatch_spec env b c st).2.1, (rollbackBatch_spec env b c st).2.2⟩
  unfold batchRows
  rw [hscan]

theorem revert_batch_reverse_order_witness :
    batchRows envAB stAB 1 = ["b", "a"] ∧
    execsOf (rollbackBatchOnConnection envAB 1 "mysql" stAB).1.trace = ["DB", "DA"] ∧
    (∃ tr, tr <+: (batchRows envAB stAB 1).flatMap (downStmtsOf envAB) ∧
      execsOf (rollbackBatchOnConnection envAB 1 "mysql" stAB).1.trace =
        execsOf stAB.trace ++ tr) := by
  refine ⟨by decide, by decide, ?_⟩
  exact (revert_batch_reverse_order envAB 1 "mysql" stAB rfl).2.1

/-- Claim C6: on a text in which the UP marker is followed by the DOWN marker
(first occurrences at the positions shown, no further DOWN occurrence), parse
yields exactly the non-empty `;`-separated statements of the up part as apply
statements and those of the down part as revert statements, each trimmed of
surrounding whitespace, empty candidates discarded, in the order written. -/
theorem parse_well_formed_file (pre u d : String)
    (hDa : noSepBelow downMarker.data
      (pre ++ upMarker ++ u ++ downMarker ++ d).data (pre ++ upMarker ++ u).data.length)
    (hD : noSepBelow downMarker.data d.data d.data.length)
    (hU : noSepBelow upMarker.data (pre ++ upMarker ++ u).data pre.data.length) :
    parseMigrationFile (pre ++ upMarker ++ u ++ downMarker ++ d) =
      (parseSQLStatements (pre ++ u), parseSQLStatements d) ∧
    (parseSQLStatements (pre ++ u)).length =
      (splitOnStr (pre ++ u) ";").countP (fun seg => !(trimStr seg == "")) ∧
    (parseSQLStatements d).length =
      (splitOnStr d ";").countP (fun seg => !(trimStr seg == "")) ∧
    (∀ t ∈ parseSQLStatements (pre ++ u), trimStr t = t) ∧
    (∀ t ∈ parseSQLStatements d, trimStr t = t) := by
  refine ⟨?_, parseSQLStatements_length _, parseSQLStatements_length _,
    parseSQLStatements_trimmed _, parseSQLStatements_trimmed _⟩
  have hmain := parseMigrationFile_two (pre ++ upMarker ++ u) d hDa hD
  rw [hmain, replaceOnceStr_boundary pre upMarker u upMarker_ne_nil hU]

theorem parse_well_formed_file_witness :
    parseMigrationFile ("" ++ upMarker ++ "\nA;B;\n" ++ downMarker ++ "\nC;\n") =
      (parseSQLStatements ("" ++ "\nA;B;\n"), parseSQLStatements "\nC;\n") ∧
    parseSQLStatements ("" ++ "\nA;B;\n") = ["A", "B"] ∧
    parseSQLStatements "\nC;\n" = ["C"] := by
  have h1 : noSepBelow downMarker.data
      ("" ++ upMarker ++ "\nA;B;\n" ++ downMarker ++ "\nC;\n").data
      ("" ++ upMarker ++ "\nA;B;\n").data.length := by
    unfold noSepBelow
    decide
  have h2 : noSepBelow downMarker.data ("\nC;\n" : String).data
      ("\nC;\n" : String).data.length := by
    unfold noSepBelow
    decide
  have h3 : noSepBelow upMarker.data ("" ++ upMarker ++ "\nA;B;\n").data
      ("" : String).data.length := by
    unfold noSepBelow
    decide
  exact ⟨(parse_well_formed_file "" "\nA;B;\n" "\nC;\n" h1 h2 h3).1, by decide, by decide⟩

/-- Claim C9: when the DOWN marker occurs twice (first occurrences at the
positions shown), the apply statements come from the text before the first
occurrence (with the first UP marker occurrence removed) and the revert
statements only from the segment strictly between the two occurrences; the
text after the second occurrence contributes to neither. -/
theorem parse_double_down_marker (a b c : String)
    (hA : noSepBelow downMarker.data
      (a ++ downMarker ++ (b ++ downMarker ++ c)).data a.data.length)
    (hB : noSepBelow downMarker.data (b ++ downMarker ++ c).data b.data.length) :
    parseMigrationFile (a ++ downMarker ++ (b ++ downMarker ++ c)) =
      (parseSQLStatements (replaceOnceStr a upMarker), parseSQLStatements b) :=
  parseMigrationFile_three a b c hA hB

theorem parse_double_down_marker_witness :
    parseMigrationFile ((upMarker ++ "X;") ++ downMarker ++ ("Y;" ++ downMarker ++ "Z;")) =
      (parseSQLStatements (replaceOnceStr (upMarker ++ "X;") upMarker),
       parseSQLStatements "Y;") ∧
    parseMigrationFile ((upMarker ++ "X;") ++ downMarker ++ ("Y;" ++ downMarker ++ "Z;")) =
      (["X"], ["Y"]) := by
  have h1 : noSepBelow downMarker.data
      ((upMarker ++ "X;") ++ downMarker ++ ("Y;" ++ downMarker ++ "Z;")).data
      (upMarker ++ "X;").data.length := by
    unfold noSepBelow
    decide
  have h2 : noSepBelow downMarker.data ("Y;" ++ downMarker ++ "Z;").data
      ("Y;" : String).data.length := by
    unfold noSepBelow
    decide
  exact ⟨parse_double_down_marker (upMarker ++ "X;") "Y;" "Z;" h1 h2, by decide⟩

/-- Claim C7, counterexample: the migrate:fresh CLI command does not call
FreshMigrationsOnConnection — with one applied change-set it executes that
change-set's revert statement (revert-all) before re-applying, so the fresh
entry point does execute revert statements. -/
theorem migrate_fresh_command_executes_reverts :
    (migrateFreshCommand envOkAll "mysql" ⟨[⟨1, "a", 1⟩], 2, []⟩).1.trace =
      [Ev.exec "DROP T", Ev.delete "a", Ev.exec "CREATE T", Ev.insert "a" 1] ∧
    "DROP T" ∈ (parseMigrationFile mFileContent).2 := by
  decide

/-- Claim C7 (amended): the engine's FreshMigrationsOnConnection behaves as
claimed — it ensures the ledger, issues the dialect-chosen truncation
(RESTART IDENTITY exactly on PostgreSQL), then delegates to apply-all from
the emptied ledger, executing only apply statements of pending change-sets —
but the migrate:fresh CLI command never invokes it: it performs revert-all
followed by apply-all instead (see the counterexample). -/
theorem fresh_truncates_then_applies_all (env : Env) (c : String) (st : St) (conn : Conn)
    (hens : ensureMigrationsTable env (dflt c) = .ok ())
    (hconn : env.getConn (dflt c) = .ok conn)
    (htrunc : env.truncErr = none) :
    freshMigrationsOnConnection env c st =
      runAllMigrationsOnConnection env (dflt c)
        { ledger := [], nextId := 1,
          trace := st.trace ++ [Ev.truncate conn.isPostgreSQL] } ∧
    (∃ tr, tr <+: (sortStrings (pendingList env
        { ledger := [], nextId := 1,
          trace := st.trace ++ [Ev.truncate conn.isPostgreSQL] })).flatMap (upStmtsOf env) ∧
      execsOf (freshMigrationsOnConnection env c st).1.trace =
        execsOf st.trace ++ tr) :=
  fresh_spec env c st conn hens hconn htrunc

theorem fresh_truncates_then_applies_all_witness :
    freshMigrationsOnConnection envOkAll "" st0 =
      runAllMigrationsOnConnection envOkAll (dflt "")
        { ledger := [], nextId := 1,
          trace := st0.trace ++ [Ev.truncate (false : Bool)] } ∧
    (∃ tr, tr <+: (sortStrings (pendingList envOkAll
        { ledger := [], nextId := 1,
          trace := st0.trace ++ [Ev.truncate (false : Bool)] })).flatMap (upStmtsOf envOkAll) ∧
      execsOf (freshMigrationsOnConnection envOkAll "" st0).1.trace =
        execsOf st0.trace ++ tr) :=
  fresh_truncates_then_applies_all envOkAll "" st0 ⟨false⟩ rfl rfl rfl

/-- Claim C8, counterexample: with DB_CONNECTION set to postgres, the
registry's configured primary connection is postgres, but an engine operation
invoked with the connection name omitted asks the registry for the hardcoded
name mysql (visible in the returned error), not for the configured primary. -/
theorem omitted_name_ignores_configured_default :
    configuredDefaultConnection "postgres" = "postgres" ∧
    (runMigrationOnConnection envNoConn "a" "" st0).2 =
      .error "failed to get connection 'mysql': no configuration" ∧
    ("mysql" : String) ≠ "postgres" := by
  refine ⟨rfl, rfl, by decide⟩

/-- Claim C8 (amended): when the connection name is omitted, every engine
operation behaves exactly as if invoked with the hardcoded name mysql; this
coincides with the registry's configured primary connection only when the
DB_CONNECTION environment variable is unset (the fallback is mysql), not in
general. -/
theorem omitted_name_defaults_to_mysql (env : Env) (st : St) (f : String) (b : Nat) :
    runMigrationOnConnection env f "" st = runMigrationOnConnection env f "mysql" st ∧
    rollbackMigrationOnConnection env f "" st =
      rollbackMigrationOnConnection env f "mysql" st ∧
    runAllMigrationsOnConnection env "" st = runAllMigrationsOnConnection env "mysql" st ∧
    rollbackBatchOnConnection env b "" st = rollbackBatchOnConnection env b "mysql" st ∧
    rollbackLastBatchOnConnection env "" st = rollbackLastBatchOnConnection env "mysql" st ∧
    runAllRollbacksOnConnection env "" st = runAllRollbacksOnConnection env "mysql" st ∧
    freshMigrationsOnConnection env "" st = freshMigrationsOnConnection env "mysql" st ∧
    dflt "" = "mysql" ∧
    configuredDefaultConnection "" = "mysql" :=
  ⟨rfl, rfl, rfl, rfl, rfl, rfl, rfl, rfl, rfl⟩

/-- Claim C10: a failed connection resolution at any stage (name not
configured, invalid configuration, unsupported dialect, open failure, pool
handle failure, ping failure) leaves the process-wide registry unchanged — no
partially-established connection is cached — so a later GetConnection for the
same name performs the full Connect again. -/
theorem failed_connect_leaves_registry_unchanged (env : MgrEnv) (st : MgrSt)
    (name : String) (st' : MgrSt) (e : String)
    (h : managerConnect env st name = (st', .error e)) :
    st' = st ∧ managerGetConnection env st' name = managerConnect env st name :=
  managerConnect_error env st name st' e h

theorem failed_connect_leaves_registry_unchanged_witness :
    (⟨[]⟩ : MgrSt) = ⟨[]⟩ ∧
    managerGetConnection mgrEnv0 ⟨[]⟩ "mysql" = managerConnect mgrEnv0 ⟨[]⟩ "mysql" :=
  failed_connect_leaves_registry_unchanged mgrEnv0 ⟨[]⟩ "mysql" ⟨[]⟩
    "database configuration 'mysql' not found" rfl
